import Mathlib

/-!
Verification of the `algo-energy-web` data pipeline scripts
(`scripts/fetch_entsoe.py`, `scripts/fetch_ote.py`, `scripts/fetch_ro_dam.py`,
`scripts/compute_entsoe_stats.py`) against their natural-language
specification.

Modelling conventions:
* Python floats are modelled by `ℚ` (the scripts only add, multiply by
  rational constants, compare and sort prices/volumes).
* Python lists become `List`, dictionaries keyed in insertion order become
  association lists, sets of date strings become `List String` membership.
* CSV cells are the strings the `csv` module would write; integers are
  rendered with `toString`.
* Fallible steps (HTTP fetch, markup parsing) are modelled by `Option` /
  `Except`: a raw market document is either a parse failure or its element
  tree, since the concrete XML grammar lives in the external `xml.etree`
  library.
-/

namespace AlgoEnergy

/-! ### Percentile (`percentile` in `fetch_entsoe.py` and
`compute_entsoe_stats.py`, identical definitions) -/

/-- Python `percentile(sorted_vals, p)`: linear-interpolation percentile.
`sorted_vals[i]` is modelled by `List.getD`; for `0 ≤ p ≤ 100` every index
used is in bounds. -/
def percentile (sorted_vals : List ℚ) (p : ℚ) : ℚ :=
  let n := sorted_vals.length
  if n = 0 then 0
  else if n = 1 then sorted_vals.getD 0 0
  else
    let k : ℚ := (p / 100) * ((n : ℚ) - 1)
    let f : ℤ := ⌊k⌋
    let c : ℤ := ⌈k⌉
    if f = c then sorted_vals.getD (⌊k⌋).toNat 0
    else sorted_vals.getD f.toNat 0 +
      (k - (f : ℚ)) * (sorted_vals.getD c.toNat 0 - sorted_vals.getD f.toNat 0)

/-- Modelled from the spec (§4.4): "for percentile `p` and sorted array of
length `n` (0-indexed), let `k = p/100 × (n−1)`; if `k` is an integer, return
that element; otherwise interpolate between `floor(k)` and `ceil(k)` weighted
by the fractional part. `n=0` → all percentiles `0`; `n=1` → the single value
for all percentiles." "`k` is an integer" is rendered as `Int.fract k = 0`,
and the weighting as `(1 - fract k)·seq[⌊k⌋] + fract k·seq[⌈k⌉]`. -/
def percentileSpec (seq : List ℚ) (p : ℚ) : ℚ :=
  let n := seq.length
  if n = 0 then 0
  else if n = 1 then seq.getD 0 0
  else
    let k : ℚ := p / 100 * ((n : ℚ) - 1)
    if Int.fract k = 0 then seq.getD (⌊k⌋).toNat 0
    else (1 - Int.fract k) * seq.getD (⌊k⌋).toNat 0 +
      Int.fract k * seq.getD (⌈k⌉).toNat 0

lemma fract_eq_zero_of_floor_eq_ceil {k : ℚ} (h : ⌊k⌋ = ⌈k⌉) :
    Int.fract k = 0 := by
  have h1 : (⌊k⌋ : ℚ) ≤ k := Int.floor_le k
  have h2 : k ≤ (⌈k⌉ : ℚ) := Int.le_ceil k
  have hk : k = (⌊k⌋ : ℚ) := le_antisymm (h ▸ h2) h1
  rw [Int.fract, ← hk]
  ring

lemma floor_eq_ceil_of_fract_eq_zero {k : ℚ} (h : Int.fract k = 0) :
    ⌊k⌋ = ⌈k⌉ := by
  have hk : k = (⌊k⌋ : ℚ) := by
    have := Int.self_sub_floor k
    rw [h] at this
    linarith
  rw [hk, Int.floor_intCast, Int.ceil_intCast]

/-- The implementation and the spec-side formulation agree everywhere. -/
lemma percentile_eq_percentileSpec (l : List ℚ) (p : ℚ) :
    percentile l p = percentileSpec l p := by
  unfold percentile percentileSpec
  by_cases h0 : l.length = 0
  · simp [h0]
  · by_cases h1 : l.length = 1
    · simp [h0, h1]
    · simp only [h0, h1, if_false]
      set k : ℚ := p / 100 * ((l.length : ℚ) - 1) with hk
      by_cases hfc : ⌊k⌋ = ⌈k⌉
      · have hz : Int.fract k = 0 := fract_eq_zero_of_floor_eq_ceil hfc
        simp [hfc, hz, mul_comm]
      · have hz : Int.fract k ≠ 0 := fun h => hfc (floor_eq_ceil_of_fract_eq_zero h)
        simp only [hfc, if_false, hz, mul_comm (p / 100)]
        rw [Int.fract]
        ring

lemma percentile_nil (p : ℚ) : percentile [] p = 0 := rfl

lemma percentile_singleton (x p : ℚ) : percentile [x] p = x := rfl

lemma percentile_zero_eq_head (l : List ℚ) (hne : l ≠ []) :
    percentile l 0 = l.getD 0 0 := by
  unfold percentile
  have hlen : l.length ≠ 0 := by simpa [List.length_eq_zero] using hne
  by_cases h1 : l.length = 1
  · simp [hlen, h1]
  · have hk : (0 : ℚ) / 100 * ((l.length : ℚ) - 1) = 0 := by ring
    simp [hlen, h1, hk]

lemma percentile_hundred_eq_last (l : List ℚ) (h2 : 2 ≤ l.length) :
    percentile l 100 = l.getD (l.length - 1) 0 := by
  obtain ⟨m, hm⟩ : ∃ m, l.length = m + 2 := ⟨l.length - 2, by omega⟩
  unfold percentile
  rw [hm]
  have hk : (100 : ℚ) / 100 * (((m + 2 : ℕ) : ℚ) - 1) = (((m + 1 : ℕ) : ℤ) : ℚ) := by
    push_cast
    ring
  simp only [hk, Int.floor_intCast, Int.ceil_intCast, if_pos rfl]
  norm_num
  intro h
  exact absurd h (by omega)

lemma percentile_hundred_eq_last' (l : List ℚ) (hne : l ≠ []) :
    percentile l 100 = l.getD (l.length - 1) 0 := by
  by_cases h1 : l.length = 1
  · obtain ⟨x, hx⟩ : ∃ x, l = [x] := List.length_eq_one.mp h1
    subst hx
    rfl
  · have hlen : l.length ≠ 0 := by simpa [List.length_eq_zero] using hne
    exact percentile_hundred_eq_last l (by omega)

lemma sorted_head_min (l : List ℚ) (hs : l.Sorted (· ≤ ·)) (hne : l ≠ []) :
    l.getD 0 0 ∈ l ∧ ∀ y ∈ l, l.getD 0 0 ≤ y := by
  cases l with
  | nil => cases hne rfl
  | cons a tl =>
    rw [List.sorted_cons] at hs
    refine ⟨by simp, ?_⟩
    intro y hy
    rcases List.mem_cons.mp hy with h | h
    · simp [h]
    · simpa using hs.1 y h

lemma sorted_last_max (l : List ℚ) (hs : l.Sorted (· ≤ ·)) (hne : l ≠ []) :
    l.getD (l.length - 1) 0 ∈ l ∧ ∀ y ∈ l, y ≤ l.getD (l.length - 1) 0 := by
  have hlen : 0 < l.length := List.length_pos.mpr hne
  have hlt : l.length - 1 < l.length := by omega
  rw [List.getD_eq_get l 0 hlt]
  refine ⟨List.get_mem _ _ _, ?_⟩
  intro y hy
  obtain ⟨i, hi⟩ := List.mem_iff_get.mp hy
  subst hi
  by_cases hc : (i : ℕ) = l.length - 1
  · have : i = ⟨l.length - 1, hlt⟩ := Fin.ext hc
    rw [this]
  · have hlt' : i < (⟨l.length - 1, hlt⟩ : Fin l.length) := by
      rw [Fin.lt_def]
      have := i.isLt
      simp only []
      omega
    exact hs.rel_get_of_lt hlt'

/-- **C1**: `percentile` on an ascending-sorted price list implements the
documented linear-interpolation rule (stated by `percentileSpec`, written
from the spec's words): `n = 0` gives `0`, `n = 1` gives the single element
for every `p`, and in general the `k = p/100·(n−1)` floor/ceil interpolation
weighted by the fractional part; consequently on a non-empty sorted list
`percentile l 0` is the minimum of `l` and `percentile l 100` the maximum. -/
theorem C1_percentile_linear_interpolation (l : List ℚ) (p x : ℚ)
    (hs : l.Sorted (· ≤ ·)) (hne : l ≠ []) :
    percentile [] p = 0 ∧
    percentile [x] p = x ∧
    percentile l p = percentileSpec l p ∧
    (percentile l 0 ∈ l ∧ ∀ y ∈ l, percentile l 0 ≤ y) ∧
    (percentile l 100 ∈ l ∧ ∀ y ∈ l, y ≤ percentile l 100) := by
  refine ⟨percentile_nil p, percentile_singleton x p,
    percentile_eq_percentileSpec l p, ?_, ?_⟩
  · rw [percentile_zero_eq_head l hne]
    exact sorted_head_min l hs hne
  · rw [percentile_hundred_eq_last' l hne]
    exact sorted_last_max l hs hne

/-- Witness for C1 at the concrete sorted list `[1, 2, 4]` and `p = 50`. -/
theorem C1_percentile_linear_interpolation_witness :
    percentile [] 50 = 0 ∧
    percentile [(7 : ℚ)] 50 = 7 ∧
    percentile [(1 : ℚ), 2, 4] 50 = percentileSpec [1, 2, 4] 50 ∧
    (percentile [(1 : ℚ), 2, 4] 0 ∈ [(1 : ℚ), 2, 4] ∧
      ∀ y ∈ [(1 : ℚ), 2, 4], percentile [(1 : ℚ), 2, 4] 0 ≤ y) ∧
    (percentile [(1 : ℚ), 2, 4] 100 ∈ [(1 : ℚ), 2, 4] ∧
      ∀ y ∈ [(1 : ℚ), 2, 4], y ≤ percentile [(1 : ℚ), 2, 4] 100) :=
  C1_percentile_linear_interpolation [1, 2, 4] 50 7
    (by decide) (by decide)

/-! ### Accepted-bid document model and `parse_and_aggregate`
(`fetch_entsoe.py`) -/

/-- One `<Point>` of a `<Period>`, after the source's numeric defaulting
(`int(field.text or 0)`, `float(... ) or 0.0` fallbacks): `position`,
`quantity`, `procurement_Price.amount`. -/
structure Pt where
  pos : ℤ
  qty : ℚ
  price : ℚ
  deriving DecidableEq, Repr

/-- One `<Period>` child of a `TimeSeries`: its `resolution` text and its
`Point` children in document order. -/
structure Period where
  resolution : String
  points : List Pt
  deriving DecidableEq, Repr

/-- One `<TimeSeries>`: the direction code, the two market-product flags and
the `Period` children; non-`Period` metadata children are already folded into
the three scalar fields, matching the source's two child scans. -/
structure TimeSeries where
  directionCode : String
  hasStandard : Bool
  hasOriginal : Bool
  periods : List Period
  deriving DecidableEq, Repr

/-- The element tree of an A15 document. Children of the root that are not
`TimeSeries` are skipped by the source, so only the series list is kept. -/
structure XmlRoot where
  series : List TimeSeries
  deriving DecidableEq, Repr

/-- `DIRECTION_MAP = {"A01": "up", "A02": "down", "A03": "both"}`. -/
def DIRECTION_MAP : List (String × String) :=
  [("A01", "up"), ("A02", "down"), ("A03", "both")]

/-- `DIRECTION_MAP.get(direction_code, direction_code.lower())`. -/
def mapDirection (code : String) : String :=
  ((DIRECTION_MAP.lookup code).getD code.toLower)

/-- `is_4h_blocks`: all positions fall on 4-hour boundaries.  Python's `%`
on ints is `Int.emod` (sign of the divisor). -/
def is_4h_blocks (points : List Pt) : Bool :=
  points.all fun p => (p.pos - 1) % 4 == 0

/-- Stable insertion of `x` into `l`: `x` goes in front of the first
element `y` with `le x y`. -/
def insertLe {α : Type} (le : α → α → Bool) (x : α) : List α → List α
  | [] => [x]
  | y :: ys => if le x y then x :: y :: ys else y :: insertLe le x ys

/-- Stable sort by the non-strict comparison `le` (insertion sort).  Python's
`list.sort`/`sorted` are stable sorts over the same total preorder, so they
produce the same list. -/
def stableSort {α : Type} (le : α → α → Bool) : List α → List α
  | [] => []
  | x :: xs => insertLe le x (stableSort le xs)

/-- `points.sort(key=lambda p: p[0])` — a stable sort by position. -/
def sortPoints (points : List Pt) : List Pt :=
  stableSort (fun a b => a.pos ≤ b.pos) points

/-- `f"{hour:02d}:00"`: two-digit zero-padded rendering of the hour (an
`int` in the source, hence `ℤ`) followed by `":00"`. -/
def blockLabel (h : ℤ) : String :=
  (if 0 ≤ h ∧ h < 10 then "0" ++ toString h else toString h) ++ ":00"

/-- Key of the `bids` dictionary: `(block_idx, block_start, direction)`. -/
abbrev BidKey := ℤ × String × String

/-- One collected bid: `(price, qty)`. -/
abbrev Bid := ℚ × ℚ

/-- `bids[key].append(entry)` on a `defaultdict(list)`, modelled as an
association list in key-insertion order (Python dicts preserve insertion
order). -/
def addBid (bids : List (BidKey × List Bid)) (k : BidKey) (b : Bid) :
    List (BidKey × List Bid) :=
  match bids with
  | [] => [(k, [b])]
  | (k', l) :: rest =>
      if k' = k then (k', l ++ [b]) :: rest else (k', l) :: addBid rest k b

/-- The body of the `for period_el in ts` loop: sort the points, classify
the series shape by `(resolution, positions)` and append each retained bid
to its `(block_idx, block_start, direction)` group. `//` on ints is
Python floor division, hence `Int.fdiv`. -/
def periodBids (direction : String) (per : Period)
    (bids : List (BidKey × List Bid)) : List (BidKey × List Bid) :=
  if per.resolution = "" ∨ per.points = [] then bids
  else
    let points := sortPoints per.points
    if per.resolution = "PT4H" then
      points.foldl (fun acc p =>
        if p.qty = 0 ∧ p.price = 0 then acc
        else addBid acc (p.pos - 1, blockLabel ((p.pos - 1) * 4), direction)
          (p.price, p.qty)) bids
    else if per.resolution = "PT60M" ∧ is_4h_blocks points then
      points.foldl (fun acc p =>
        if p.qty = 0 ∧ p.price = 0 then acc
        else addBid acc
          ((p.pos - 1).fdiv 4, blockLabel ((p.pos - 1).fdiv 4 * 4), direction)
          (p.price, p.qty)) bids
    else if per.resolution = "PT60M" ∧ points.length = 1 then
      match points with
      | [] => bids
      | p :: _ =>
          if p.qty = 0 ∧ p.price = 0 then bids
          else addBid bids (0, "00:00", direction) (p.price, p.qty)
    else bids

/-- The body of the `for ts in root` loop: series that declare an original
but no standard market product are skipped entirely. -/
def seriesBids (ts : TimeSeries) (bids : List (BidKey × List Bid)) :
    List (BidKey × List Bid) :=
  if ts.hasOriginal ∧ ¬ ts.hasStandard then bids
  else ts.periods.foldl
    (fun acc per => periodBids (mapDirection ts.directionCode) per acc) bids

/-- The bid-collection phase of `parse_and_aggregate`. -/
def collectBids (doc : XmlRoot) : List (BidKey × List Bid) :=
  doc.series.foldl (fun acc ts => seriesBids ts acc) []

/-- Code-point comparison of character lists, mirroring Python string
comparison. -/
def charListLt : List Char → List Char → Bool
  | [], [] => false
  | [], _ :: _ => true
  | _ :: _, [] => false
  | a :: as, b :: bs =>
      if a.toNat < b.toNat then true
      else if b.toNat < a.toNat then false
      else charListLt as bs

/-- Python `<` on strings (code-point lexicographic). -/
def strLtB (a b : String) : Bool := charListLt a.data b.data

/-- The sort key of the output loop: `key=lambda k: (k[0], k[2])`, as the
non-strict comparison used by the stable model sort. -/
def keyLe (a b : BidKey) : Bool :=
  a.1 < b.1 || (a.1 = b.1 && (a.2.2 = b.2.2 || strLtB a.2.2 b.2.2))

/-- Python `max(prices)` on a non-empty list (the empty case is unreachable
in the source; it is mapped to `0`). -/
def listMax : List ℚ → ℚ
  | [] => 0
  | [x] => x
  | x :: y :: tl => max x (listMax (y :: tl))

/-- Round to the nearest integer, ties to even — the rounding of CPython's
fixed-point float formatting, applied here to the exact rational value. -/
def roundHalfEven (q : ℚ) : ℤ :=
  let f := ⌊q⌋
  let r := q - (f : ℚ)
  if r < 1 / 2 then f
  else if 1 / 2 < r then f + 1
  else if f % 2 = 0 then f else f + 1

/-- `f"{v:.{dec}f}"`: fixed-point decimal rendering with `dec` digits.  (No
theorem in this file depends on the rendered digits.) -/
def fmtFixed (dec : ℕ) (q : ℚ) : String :=
  let scale : ℤ := (10 : ℤ) ^ dec
  let m := roundHalfEven (q * (scale : ℚ))
  let sign := if m < 0 then "-" else ""
  let a := m.natAbs
  let fpStr := toString (a % 10 ^ dec)
  let pad := String.mk (List.replicate (dec - fpStr.length) '0')
  sign ++ toString (a / 10 ^ dec) ++ "." ++ pad ++ fpStr

/-- A persisted CSV row, cell by cell, as the `csv` module renders it
(integers via `toString`, formatted floats via `fmtFixed`). -/
abbrev Row := List String

/-- One iteration of the aggregation loop of `parse_and_aggregate`: groups
that are empty are skipped (`if not entries: continue`), otherwise the
percentile-statistics row is built from the ascending-sorted prices. -/
def rowOfGroup (delivery_date : String) (kv : BidKey × List Bid) :
    Option Row :=
  if kv.2 = [] then none
  else
    let prices := stableSort (fun a b => decide (a ≤ b)) (kv.2.map Prod.fst)
    let total_vol := (kv.2.map Prod.snd).sum
    let count := prices.length
    some [delivery_date, toString kv.1.1, kv.1.2.1, kv.1.2.2, toString count,
      fmtFixed 2 (listMax prices),
      fmtFixed 2 (percentile prices 10),
      fmtFixed 2 (percentile prices 25),
      fmtFixed 2 (percentile prices 50),
      fmtFixed 2 (percentile prices 75),
      fmtFixed 2 (percentile prices 90),
      fmtFixed 1 total_vol]

/-- `parse_and_aggregate(xml_str, delivery_date)` on the already-parsed
element tree: collect the bids, then emit one statistics row per group,
keys sorted by `(block_idx, direction)`. -/
def parseAndAggregate (doc : XmlRoot) (delivery_date : String) : List Row :=
  (stableSort (fun a b => keyLe a.1 b.1) (collectBids doc)).filterMap
    (rowOfGroup delivery_date)

/-! ### Helper lemmas about the stable sort -/

lemma insertLe_cons_of_le {α : Type} (le : α → α → Bool) (x y : α)
    (ys : List α) (h : le x y = true) :
    insertLe le x (y :: ys) = x :: y :: ys := by
  simp [insertLe, h]

lemma stableSort_of_pairwise {α : Type} (le : α → α → Bool) (l : List α)
    (h : l.Pairwise fun a b => le a b = true) : stableSort le l = l := by
  induction l with
  | nil => rfl
  | cons x xs ih =>
    rw [List.pairwise_cons] at h
    rw [stableSort, ih h.2]
    cases xs with
    | nil => rfl
    | cons y ys => exact insertLe_cons_of_le le x y ys (h.1 y (by simp))

lemma mem_insertLe {α : Type} (le : α → α → Bool) (x a : α) (l : List α) :
    a ∈ insertLe le x l ↔ a = x ∨ a ∈ l := by
  induction l with
  | nil => simp [insertLe]
  | cons y ys ih =>
    by_cases h : le x y
    · simp [insertLe, h]
    · rw [insertLe, if_neg h]
      simp only [List.mem_cons, ih]
      tauto

lemma mem_stableSort {α : Type} (le : α → α → Bool) (a : α) (l : List α) :
    a ∈ stableSort le l ↔ a ∈ l := by
  induction l with
  | nil => simp [stableSort]
  | cons x xs ih =>
    rw [stableSort, mem_insertLe]
    simp [ih]

lemma all_insertLe {α : Type} (le : α → α → Bool) (f : α → Bool) (x : α)
    (l : List α) : (insertLe le x l).all f = (f x && l.all f) := by
  induction l with
  | nil => simp [insertLe]
  | cons y ys ih =>
    by_cases h : le x y
    · simp [insertLe, h]
    · rw [insertLe, if_neg h]
      simp only [List.all_cons, ih]
      rw [Bool.and_left_comm]

lemma all_stableSort {α : Type} (le : α → α → Bool) (f : α → Bool)
    (l : List α) : (stableSort le l).all f = l.all f := by
  induction l with
  | nil => rfl
  | cons x xs ih =>
    rw [stableSort, all_insertLe, ih, List.all_cons]

lemma length_insertLe {α : Type} (le : α → α → Bool) (x : α) (l : List α) :
    (insertLe le x l).length = l.length + 1 := by
  induction l with
  | nil => rfl
  | cons y ys ih =>
    by_cases h : le x y
    · simp [insertLe, h]
    · simp [insertLe, h, ih]

lemma length_stableSort {α : Type} (le : α → α → Bool) (l : List α) :
    (stableSort le l).length = l.length := by
  induction l with
  | nil => rfl
  | cons x xs ih => rw [stableSort, length_insertLe, ih, List.length_cons]

lemma stableSort_eq_nil_iff {α : Type} (le : α → α → Bool) (l : List α) :
    stableSort le l = [] ↔ l = [] := by
  constructor
  · intro h
    have := length_stableSort le l
    rw [h] at this
    exact List.length_eq_zero.mp this.symm
  · intro h
    rw [h]
    rfl

lemma is_4h_blocks_sortPoints (pts : List Pt) :
    is_4h_blocks (sortPoints pts) = is_4h_blocks pts := by
  unfold is_4h_blocks sortPoints
  exact all_stableSort _ _ pts

/-! ### C2: block mapping of accepted series shapes -/

/-- The position embedding `i ↦ 4·(i−1)+1` that turns 4-hour-native
positions `1..6` into the hourly positions `1,5,9,13,17,21`. -/
def toSparse (pt : Pt) : Pt := ⟨4 * pt.pos - 3, pt.qty, pt.price⟩

lemma insertLe_map_toSparse (x : Pt) (l : List Pt) :
    insertLe (fun a b => a.pos ≤ b.pos) (toSparse x) (l.map toSparse)
      = (insertLe (fun a b => a.pos ≤ b.pos) x l).map toSparse := by
  induction l with
  | nil => rfl
  | cons y ys ih =>
    have hle : ((toSparse x).pos ≤ (toSparse y).pos) ↔ (x.pos ≤ y.pos) := by
      simp only [toSparse]
      omega
    by_cases h : x.pos ≤ y.pos
    · simp [insertLe, h, hle.mpr h]
    · have h' : ¬ (toSparse x).pos ≤ (toSparse y).pos := fun hc => h (hle.mp hc)
      simp [insertLe, h, h', ih]

lemma sortPoints_map_toSparse (l : List Pt) :
    sortPoints (l.map toSparse) = (sortPoints l).map toSparse := by
  unfold sortPoints
  induction l with
  | nil => rfl
  | cons x xs ih =>
    simp only [List.map_cons, stableSort, ih]
    exact insertLe_map_toSparse x (stableSort _ xs)

lemma is_4h_blocks_map_toSparse (l : List Pt) :
    is_4h_blocks (l.map toSparse) = true := by
  rw [is_4h_blocks, List.all_eq_true]
  intro p hp
  simp only [List.mem_map] at hp
  obtain ⟨a, _, rfl⟩ := hp
  show ((4 * a.pos - 3 - 1) % 4 == 0) = true
  rw [beq_iff_eq]
  omega

lemma sparse_key_eq (p : Pt) :
    ((toSparse p).pos - 1).fdiv 4 = p.pos - 1 := by
  show (4 * p.pos - 3 - 1).fdiv 4 = p.pos - 1
  have h : 4 * p.pos - 3 - 1 = 4 * (p.pos - 1) := by ring
  rw [h]
  exact Int.mul_fdiv_cancel_left _ (by norm_num)

lemma foldl_sparse_eq (dir : String) (l : List Pt)
    (bids : List (BidKey × List Bid)) :
    (l.map toSparse).foldl (fun acc p =>
        if p.qty = 0 ∧ p.price = 0 then acc
        else addBid acc
          ((p.pos - 1).fdiv 4, blockLabel ((p.pos - 1).fdiv 4 * 4), dir)
          (p.price, p.qty)) bids
      = l.foldl (fun acc p =>
        if p.qty = 0 ∧ p.price = 0 then acc
        else addBid acc (p.pos - 1, blockLabel ((p.pos - 1) * 4), dir)
          (p.price, p.qty)) bids := by
  induction l generalizing bids with
  | nil => rfl
  | cons x xs ih =>
    simp only [List.map_cons, List.foldl_cons]
    rw [show (toSparse x).qty = x.qty from rfl,
      show (toSparse x).price = x.price from rfl, sparse_key_eq x]
    exact ih _

/-- The 4-hour-native branch of `periodBids`, isolated. -/
lemma periodBids_PT4H (dir : String) (pts : List Pt) (hne : pts ≠ [])
    (bids : List (BidKey × List Bid)) :
    periodBids dir ⟨"PT4H", pts⟩ bids
      = (sortPoints pts).foldl (fun acc p =>
          if p.qty = 0 ∧ p.price = 0 then acc
          else addBid acc (p.pos - 1, blockLabel ((p.pos - 1) * 4), dir)
            (p.price, p.qty)) bids := by
  unfold periodBids
  rw [if_neg (by simp [hne]), if_pos rfl]

/-- The sparse-hourly branch of `periodBids`, isolated. -/
lemma periodBids_PT60M_sparse (dir : String) (pts : List Pt) (hne : pts ≠ [])
    (h4 : is_4h_blocks (sortPoints pts) = true)
    (bids : List (BidKey × List Bid)) :
    periodBids dir ⟨"PT60M", pts⟩ bids
      = (sortPoints pts).foldl (fun acc p =>
          if p.qty = 0 ∧ p.price = 0 then acc
          else addBid acc
            ((p.pos - 1).fdiv 4, blockLabel ((p.pos - 1).fdiv 4 * 4), dir)
            (p.price, p.qty)) bids := by
  unfold periodBids
  rw [if_neg (by simp [hne]), if_neg (by simp), if_pos ⟨rfl, h4⟩]

/-- A 60-minute series whose positions are the image of `1..n` positions
under `i ↦ 4(i−1)+1` is mapped exactly as the corresponding 4-hour-native
series. -/
lemma periodBids_sparse_hourly (dir : String) (l : List Pt)
    (bids : List (BidKey × List Bid)) :
    periodBids dir ⟨"PT60M", l.map toSparse⟩ bids
      = periodBids dir ⟨"PT4H", l⟩ bids := by
  cases l with
  | nil => rfl
  | cons x xs =>
    have hsort : sortPoints ((x :: xs).map toSparse)
        = (sortPoints (x :: xs)).map toSparse := sortPoints_map_toSparse (x :: xs)
    rw [periodBids_PT60M_sparse dir _ (by simp)
        (by rw [hsort]; exact is_4h_blocks_map_toSparse _),
      periodBids_PT4H dir _ (by simp), hsort]
    exact foldl_sparse_eq dir (sortPoints (x :: xs)) bids

/-- **C2**: block mapping.  A 4-hour-native point at position `p` maps to
block `p−1` with label `HH:00`, `HH = 4·(p−1)`; a 60-minute point on a
4-hour boundary maps to block `(p−1)/4` with the same label; the six
labels are `00:00 … 20:00`; and the hourly series with positions
`1,5,9,13,17,21` produces exactly the block assignments of the
4-hour-native series with positions `1..6` carrying the same values. -/
theorem C2_block_mapping (dir : String) (bids : List (BidKey × List Bid))
    (pos : ℤ) (q p : ℚ) (q1 p1 q2 p2 q3 p3 q4 p4 q5 p5 q6 p6 : ℚ)
    (hz : ¬(q = 0 ∧ p = 0)) :
    (periodBids dir ⟨"PT4H", [⟨pos, q, p⟩]⟩ bids
      = addBid bids (pos - 1, blockLabel ((pos - 1) * 4), dir) (p, q)) ∧
    ((pos - 1) % 4 = 0 →
      periodBids dir ⟨"PT60M", [⟨pos, q, p⟩]⟩ bids
        = addBid bids
          ((pos - 1).fdiv 4, blockLabel ((pos - 1).fdiv 4 * 4), dir) (p, q)) ∧
    [blockLabel 0, blockLabel 4, blockLabel 8, blockLabel 12, blockLabel 16,
        blockLabel 20]
      = ["00:00", "04:00", "08:00", "12:00", "16:00", "20:00"] ∧
    periodBids dir ⟨"PT60M", [⟨1, q1, p1⟩, ⟨5, q2, p2⟩, ⟨9, q3, p3⟩,
        ⟨13, q4, p4⟩, ⟨17, q5, p5⟩, ⟨21, q6, p6⟩]⟩ bids
      = periodBids dir ⟨"PT4H", [⟨1, q1, p1⟩, ⟨2, q2, p2⟩, ⟨3, q3, p3⟩,
        ⟨4, q4, p4⟩, ⟨5, q5, p5⟩, ⟨6, q6, p6⟩]⟩ bids := by
  refine ⟨?_, ?_, by decide, ?_⟩
  · rw [periodBids_PT4H dir _ (by simp) bids,
      show sortPoints [⟨pos, q, p⟩] = [⟨pos, q, p⟩] from rfl]
    simp [hz]
  · intro h4
    rw [periodBids_PT60M_sparse dir _ (by simp)
        (by rw [show sortPoints [⟨pos, q, p⟩] = [⟨pos, q, p⟩] from rfl]
            simp [is_4h_blocks, h4]) bids,
      show sortPoints [⟨pos, q, p⟩] = [⟨pos, q, p⟩] from rfl]
    simp [hz]
  · have h60 : ([⟨1, q1, p1⟩, ⟨5, q2, p2⟩, ⟨9, q3, p3⟩, ⟨13, q4, p4⟩,
        ⟨17, q5, p5⟩, ⟨21, q6, p6⟩] : List Pt)
        = ([⟨1, q1, p1⟩, ⟨2, q2, p2⟩, ⟨3, q3, p3⟩, ⟨4, q4, p4⟩,
        ⟨5, q5, p5⟩, ⟨6, q6, p6⟩] : List Pt).map toSparse := by
      simp only [List.map_cons, List.map_nil, toSparse]
      norm_num
    rw [h60]
    exact periodBids_sparse_hourly dir _ bids

/-- Witness for C2 at position `3`, values `(qty, price) = (2, 50)`,
direction `"up"`, empty accumulator. -/
theorem C2_block_mapping_witness :
    periodBids "up" ⟨"PT4H", [⟨3, 2, 50⟩]⟩ []
      = addBid [] ((3 : ℤ) - 1, blockLabel (((3 : ℤ) - 1) * 4), "up") (50, 2) :=
  (C2_block_mapping "up" [] 3 2 50 0 0 0 0 0 0 0 0 0 0 0 0
    (by norm_num)).1

/-! ### C7: zero-valued observations and empty groups -/

/-- Invariant of the `bids` dictionary: every group is non-empty and holds
no `(price, qty)` entry whose quantity and price are both zero. -/
def goodBids (bids : List (BidKey × List Bid)) : Prop :=
  ∀ kv ∈ bids, kv.2 ≠ [] ∧ ∀ b ∈ kv.2, ¬(b.2 = 0 ∧ b.1 = 0)

lemma addBid_good {bids : List (BidKey × List Bid)} {k : BidKey} {b : Bid}
    (h : goodBids bids) (hb : ¬(b.2 = 0 ∧ b.1 = 0)) :
    goodBids (addBid bids k b) := by
  induction bids with
  | nil =>
    intro kv hkv
    simp only [addBid, List.mem_singleton] at hkv
    subst hkv
    exact ⟨by simp, by simpa using hb⟩
  | cons hd tl ih =>
    obtain ⟨k', l⟩ := hd
    by_cases hk : k' = k
    · intro kv hkv
      rw [addBid] at hkv
      rw [if_pos hk] at hkv
      rcases List.mem_cons.mp hkv with h1 | h1
      · subst h1
        refine ⟨by simp, ?_⟩
        intro b' hb'
        rcases List.mem_append.mp hb' with h2 | h2
        · exact (h (k', l) (by simp)).2 b' h2
        · rw [List.mem_singleton.mp h2]
          exact hb
      · exact h _ (List.mem_cons_of_mem _ h1)
    · intro kv hkv
      rw [addBid] at hkv
      rw [if_neg hk] at hkv
      rcases List.mem_cons.mp hkv with h1 | h1
      · subst h1
        exact h (k', l) (by simp)
      · exact ih (fun kv' hkv' => h kv' (List.mem_cons_of_mem _ hkv')) kv h1

lemma foldl_addBid_good (keyf : Pt → BidKey) (l : List Pt)
    {bids : List (BidKey × List Bid)} (h : goodBids bids) :
    goodBids (l.foldl (fun acc p =>
      if p.qty = 0 ∧ p.price = 0 then acc
      else addBid acc (keyf p) (p.price, p.qty)) bids) := by
  induction l generalizing bids with
  | nil => exact h
  | cons x xs ih =>
    rw [List.foldl_cons]
    by_cases hz : x.qty = 0 ∧ x.price = 0
    · rw [if_pos hz]
      exact ih h
    · rw [if_neg hz]
      exact ih (addBid_good h (by simpa using hz))

lemma periodBids_good (dir : String) (per : Period)
    {bids : List (BidKey × List Bid)} (h : goodBids bids) :
    goodBids (periodBids dir per bids) := by
  unfold periodBids
  by_cases h0 : per.resolution = "" ∨ per.points = []
  · rw [if_pos h0]
    exact h
  · rw [if_neg h0]
    by_cases h1 : per.resolution = "PT4H"
    · rw [if_pos h1]
      exact foldl_addBid_good _ _ h
    · rw [if_neg h1]
      by_cases h2 : per.resolution = "PT60M" ∧
          is_4h_blocks (sortPoints per.points) = true
      · rw [if_pos h2]
        exact foldl_addBid_good _ _ h
      · rw [if_neg h2]
        by_cases h3 : per.resolution = "PT60M" ∧
            (sortPoints per.points).length = 1
        · rw [if_pos h3]
          cases hs : sortPoints per.points with
          | nil => exact h
          | cons p tl =>
            show goodBids (if p.qty = 0 ∧ p.price = 0 then bids
              else addBid bids (0, "00:00", dir) (p.price, p.qty))
            by_cases hz : p.qty = 0 ∧ p.price = 0
            · rw [if_pos hz]
              exact h
            · rw [if_neg hz]
              exact addBid_good h (by simpa using hz)
        · rw [if_neg h3]
          exact h

lemma seriesBids_good (ts : TimeSeries)
    {bids : List (BidKey × List Bid)} (h : goodBids bids) :
    goodBids (seriesBids ts bids) := by
  unfold seriesBids
  by_cases hskip : ts.hasOriginal = true ∧ ¬ts.hasStandard = true
  · rw [if_pos hskip]
    exact h
  · rw [if_neg hskip]
    generalize ts.periods = pers
    induction pers generalizing bids with
    | nil => exact h
    | cons per rest ih =>
      rw [List.foldl_cons]
      exact ih (periodBids_good _ per h)

lemma collectBids_good (doc : XmlRoot) : goodBids (collectBids doc) := by
  unfold collectBids
  have : goodBids ([] : List (BidKey × List Bid)) := by
    intro kv hkv
    cases hkv
  generalize hstart : ([] : List (BidKey × List Bid)) = start at this ⊢
  clear hstart
  induction doc.series generalizing start with
  | nil => exact this
  | cons ts rest ih =>
    rw [List.foldl_cons]
    exact ih _ (seriesBids_good ts this)

/-- Modelled from the claim's words: the document with every observation
whose quantity and price are both exactly zero removed before any block
mapping. -/
def dropZeroObservations (doc : XmlRoot) : XmlRoot :=
  ⟨doc.series.map fun ts =>
    { ts with periods := ts.periods.map fun per =>
      { per with points :=
          per.points.filter fun p => !(p.qty = 0 ∧ p.price = 0 : Bool) } }⟩

/-- **C7 counterexample**: zero-valued observations are *not* dropped before
block mapping — they still count for the series-shape classification.  The
60-minute series `[(pos 1, 0, 0), (pos 2, qty 5, price 10)]` is discarded
(two points, not on 4-hour boundaries), but with the zero point removed
first it would be a single-point series and produce a block-0 row. -/
theorem C7_counterexample :
    parseAndAggregate
      ⟨[⟨"A01", true, false, [⟨"PT60M", [⟨1, 0, 0⟩, ⟨2, 5, 10⟩]⟩]⟩]⟩ "d" = []
    ∧
    parseAndAggregate
      (dropZeroObservations
        ⟨[⟨"A01", true, false, [⟨"PT60M", [⟨1, 0, 0⟩, ⟨2, 5, 10⟩]⟩]⟩]⟩) "d"
      ≠ [] := by
  constructor
  · rfl
  · decide

/-- **C7 (amended)**: during block mapping every observation whose quantity
and price are both exactly zero is dropped (though only after the
series-shape classification, which still sees it), every retained group is
non-empty and holds only not-both-zero observations, and consequently every
emitted percentile row carries a count of at least 1. -/
theorem C7_no_zero_rows (doc : XmlRoot) (dd : String) :
    (∀ kv ∈ collectBids doc, kv.2 ≠ [] ∧ ∀ b ∈ kv.2, ¬(b.2 = 0 ∧ b.1 = 0)) ∧
    (∀ row ∈ parseAndAggregate doc dd,
      ∃ n : ℕ, 1 ≤ n ∧ row.getD 4 "" = toString n) := by
  refine ⟨collectBids_good doc, ?_⟩
  intro row hrow
  unfold parseAndAggregate at hrow
  obtain ⟨kv, hkv, hrw⟩ := List.mem_filterMap.mp hrow
  have hgood : kv.2 ≠ [] :=
    ((collectBids_good doc) kv ((mem_stableSort _ _ _).mp hkv)).1
  unfold rowOfGroup at hrw
  rw [if_neg hgood] at hrw
  refine ⟨(stableSort (fun a b => decide (a ≤ b)) (kv.2.map Prod.fst)).length,
    ?_, ?_⟩
  · rw [length_stableSort, List.length_map]
    have := List.length_pos.mpr hgood
    omega
  · simp only [Option.some.injEq] at hrw
    subst hrw
    rfl

/-- Witness for C7 at a one-series document with a single non-zero bid. -/
theorem C7_no_zero_rows_witness :
    ∀ kv ∈ collectBids ⟨[⟨"A01", true, false, [⟨"PT4H", [⟨1, 2, 30⟩]⟩]⟩]⟩,
      kv.2 ≠ [] ∧ ∀ b ∈ kv.2, ¬(b.2 = 0 ∧ b.1 = 0) :=
  (C7_no_zero_rows ⟨[⟨"A01", true, false, [⟨"PT4H", [⟨1, 2, 30⟩]⟩]⟩]⟩ "d").1

/-! ### C8: non-matching series are discarded -/

/-- **C8**: a series matching none of the three accepted shapes (4-hour
native; 60-minute with all positions on 4-hour boundaries; 60-minute with
exactly one point) contributes nothing, and the dense hourly series with
positions `1..24` yields zero output rows. -/
theorem C8_unmatched_series_discarded :
    (∀ (dir : String) (per : Period) (bids : List (BidKey × List Bid)),
      per.resolution ≠ "PT4H" →
      ¬(per.resolution = "PT60M" ∧ is_4h_blocks per.points = true) →
      ¬(per.resolution = "PT60M" ∧ per.points.length = 1) →
      periodBids dir per bids = bids) ∧
    parseAndAggregate
      ⟨[⟨"A01", true, false,
        [⟨"PT60M", (List.range 24).map fun i => ⟨(i : ℤ) + 1, 1, 1⟩⟩]⟩]⟩ "d"
      = [] := by
  constructor
  · intro dir per bids h1 h2 h3
    unfold periodBids
    by_cases h0 : per.resolution = "" ∨ per.points = []
    · rw [if_pos h0]
    · rw [if_neg h0, if_neg h1]
      rw [if_neg (by rw [is_4h_blocks_sortPoints]; exact h2)]
      rw [if_neg (by unfold sortPoints; rw [length_stableSort]; exact h3)]
  · rfl

/-- Witness for C8: a 15-minute series is discarded. -/
theorem C8_unmatched_series_discarded_witness :
    periodBids "up" ⟨"PT15M", [⟨1, 1, 1⟩]⟩ [] = [] :=
  C8_unmatched_series_discarded.1 "up" ⟨"PT15M", [⟨1, 1, 1⟩]⟩ []
    (by decide) (by decide) (by decide)

/-! ### Incremental CSV store and the per-date run loop (`fetch_entsoe.py`) -/

/-- `CSV_HEADER` of the accepted-bid fetcher. -/
def CSV_HEADER : Row :=
  ["date", "block", "block_start", "direction", "count", "max_price",
   "p10", "p25", "p50", "p75", "p90", "total_volume"]

/-- A persisted year table: the CSV file as its list of rows, header row
included; a missing or empty file is `[]`. -/
abbrev Table := List Row

/-- `load_existing_dates`: skip the header row, then collect `row[0]` of
every non-empty row. -/
def load_existing_dates (t : Table) : List String :=
  match t with
  | [] => []
  | _header :: rows =>
      rows.filterMap fun r =>
        match r with
        | [] => none
        | c :: _ => some c

/-- `write_csv` of `fetch_entsoe.py`: append rows, writing the header first
if the file does not exist or is empty. -/
def write_csv (t : Table) (rows : List Row) : Table :=
  if t = [] then CSV_HEADER :: rows else t ++ rows

/-- `BLOCKS`. -/
def BLOCKS : List (ℕ × String) :=
  [(0, "00:00"), (1, "04:00"), (2, "08:00"), (3, "12:00"), (4, "16:00"),
   (5, "20:00")]

/-- `nan_placeholder_rows(date_str)`: 6 blocks × 2 directions placeholder
rows `[date, block, block_start, direction, 0, "", …, "", 0]`, with the
integer cells rendered the way the `csv` module writes them. -/
def nan_placeholder_rows (date_str : String) : List Row :=
  BLOCKS.bind fun b =>
    ["down", "up"].map fun direction =>
      [date_str, toString b.1, b.2, direction, "0",
       "", "", "", "", "", "", "0"]

/-- A delivery date as the run loop consumes it: its calendar year (used to
pick the year table) and its ISO string `d.isoformat()`. -/
structure Day where
  year : ℕ
  iso : String
  deriving DecidableEq, Repr

/-- Lookup of a per-year association list (a missing file is `[]`). -/
def getTable (ts : List (ℕ × Table)) (y : ℕ) : Table := (ts.lookup y).getD []

/-- Update/insert of a per-year association list. -/
def setTable (ts : List (ℕ × Table)) (y : ℕ) (t : Table) :
    List (ℕ × Table) :=
  match ts with
  | [] => [(y, t)]
  | (y', t') :: rest =>
      if y' = y then (y, t) :: rest else (y', t') :: setTable rest y t

/-- `existing.add(date_str)` on the per-year in-memory date sets. -/
def addExisting (ex : List (ℕ × List String)) (y : ℕ) (iso : String) :
    List (ℕ × List String) :=
  match ex with
  | [] => [(y, [iso])]
  | (y', l) :: rest =>
      if y' = y then (y, l ++ [iso]) :: rest else (y', l) :: addExisting rest y iso

/-- `existing_by_year`: the per-year date sets loaded once at run start from
the year tables of the years occurring in the date range. -/
def initExisting (tables : List (ℕ × Table)) (dates : List Day) :
    List (ℕ × List String) :=
  ((dates.map Day.year).dedup).map fun y =>
    (y, load_existing_dates (getTable tables y))

/-- The in-memory state of one product's run: the year tables as they stand
on disk, the in-memory existing-date sets, and the number of API calls
made. -/
structure RunState where
  tables : List (ℕ × Table)
  existing : List (ℕ × List String)
  apiCalls : ℕ
  deriving DecidableEq, Repr

/-- A fetched raw document: `none` models `fetch_xml` returning `None`
(transport failure or no-data), `some (Except.error ())` a response whose
markup cannot be parsed (`ET.fromstring` raises), and `some (Except.ok doc)`
a well-formed document tree. -/
abbrev FetchResult := Option (Except Unit XmlRoot)

/-- One iteration of the per-date loop in `main` of `fetch_entsoe.py`.  A
date already in the existing set of its year is skipped before any fetch;
otherwise the fetch counts one API call, `None` and an empty aggregation
write placeholder rows, and a markup parse failure propagates (`Except.error`
aborts the run, as the uncaught exception would). -/
def processDate (fetch : Day → FetchResult) (st : RunState) (d : Day) :
    Except Unit RunState :=
  let existing := (st.existing.lookup d.year).getD []
  if d.iso ∈ existing then .ok st
  else
    match fetch d with
    | none =>
        .ok { st with
          tables := setTable st.tables d.year
            (write_csv (getTable st.tables d.year) (nan_placeholder_rows d.iso)),
          existing := addExisting st.existing d.year d.iso,
          apiCalls := st.apiCalls + 1 }
    | some (.error e) => .error e
    | some (.ok doc) =>
        let rows := parseAndAggregate doc d.iso
        if rows = [] then
          .ok { st with
            tables := setTable st.tables d.year
              (write_csv (getTable st.tables d.year) (nan_placeholder_rows d.iso)),
            existing := addExisting st.existing d.year d.iso,
            apiCalls := st.apiCalls + 1 }
        else
          .ok { st with
            tables := setTable st.tables d.year
              (write_csv (getTable st.tables d.year) rows),
            existing := addExisting st.existing d.year d.iso,
            apiCalls := st.apiCalls + 1 }

/-- The date loop: sequential, aborted by the first uncaught exception. -/
def runLoop (fetch : Day → FetchResult) (dates : List Day) (st : RunState) :
    Except Unit RunState :=
  match dates with
  | [] => .ok st
  | d :: rest =>
      match processDate fetch st d with
      | .error e => .error e
      | .ok st' => runLoop fetch rest st'

/-- One product's run over a date range against the persisted year tables:
load the existing-date sets, then process every date. -/
def runProduct (fetch : Day → FetchResult) (dates : List Day)
    (tables : List (ℕ × Table)) : Except Unit RunState :=
  runLoop fetch dates
    { tables := tables, existing := initExisting tables dates, apiCalls := 0 }

/-! ### Store lemmas -/

lemma getTable_setTable_self (ts : List (ℕ × Table)) (y : ℕ) (t : Table) :
    getTable (setTable ts y t) y = t := by
  induction ts with
  | nil => simp [getTable, setTable, List.lookup]
  | cons hd rest ih =>
    obtain ⟨y', t'⟩ := hd
    by_cases h : y' = y
    · subst h
      simp [getTable, setTable, List.lookup]
    · rw [setTable, if_neg h]
      simp only [getTable, List.lookup] at ih ⊢
      have : (y == y') = false := by
        simp [BEq.beq]
        omega
      simp only [this]
      exact ih

lemma getTable_setTable_ne (ts : List (ℕ × Table)) (y y' : ℕ) (t : Table)
    (h : y' ≠ y) : getTable (setTable ts y t) y' = getTable ts y' := by
  induction ts with
  | nil =>
    simp only [setTable, getTable, List.lookup]
    have : (y' == y) = false := by
      simp [BEq.beq]
      omega
    simp [this]
  | cons hd rest ih =>
    obtain ⟨y0, t0⟩ := hd
    by_cases h0 : y0 = y
    · subst h0
      simp only [setTable, if_pos rfl, getTable, List.lookup]
      have : (y' == y0) = false := by
        simp [BEq.beq]
        omega
      simp [this]
    · rw [setTable, if_neg h0]
      simp only [getTable, List.lookup] at ih ⊢
      by_cases hy : y' = y0
      · subst hy
        simp
      · have : (y' == y0) = false := by
          simp [BEq.beq]
          omega
        simp only [this]
        exact ih

lemma lookup_addExisting_self (ex : List (ℕ × List String)) (y : ℕ)
    (iso : String) :
    ((addExisting ex y iso).lookup y).getD []
      = ((ex.lookup y).getD []) ++ [iso] := by
  induction ex with
  | nil => simp [addExisting, List.lookup]
  | cons hd rest ih =>
    obtain ⟨y', l⟩ := hd
    by_cases h : y' = y
    · subst h
      simp [addExisting, List.lookup]
    · rw [addExisting, if_neg h]
      simp only [List.lookup]
      have : (y == y') = false := by
        simp [BEq.beq]
        omega
      simp only [this]
      exact ih

lemma lookup_addExisting_ne (ex : List (ℕ × List String)) (y y' : ℕ)
    (iso : String) (h : y' ≠ y) :
    (addExisting ex y iso).lookup y' = ex.lookup y' := by
  induction ex with
  | nil =>
    simp only [addExisting, List.lookup]
    have : (y' == y) = false := by
      simp [BEq.beq]
      omega
    simp [this]
  | cons hd rest ih =>
    obtain ⟨y0, l⟩ := hd
    by_cases h0 : y0 = y
    · subst h0
      simp only [addExisting, if_pos rfl, List.lookup]
      have : (y' == y0) = false := by
        simp [BEq.beq]
        omega
      simp [this]
    · rw [addExisting, if_neg h0]
      simp only [List.lookup]
      by_cases hy : y' = y0
      · subst hy
        simp
      · have : (y' == y0) = false := by
          simp [BEq.beq]
          omega
        simp only [this]
        exact ih

lemma lookup_map_pair {α : Type} (l : List ℕ) (f : ℕ → α) (y : ℕ) :
    ((l.map fun z => (z, f z)).lookup y)
      = if y ∈ l then some (f y) else none := by
  induction l with
  | nil => simp
  | cons z rest ih =>
    by_cases h : y = z
    · subst h
      simp [List.lookup]
    · have : (y == z) = false := by
        simp [BEq.beq]
        omega
      simp only [List.map_cons, List.lookup, this, ih, List.mem_cons]
      simp [h]

lemma mem_load_write_old {t : Table} {rows : List Row} {x : String}
    (hx : x ∈ load_existing_dates t) :
    x ∈ load_existing_dates (write_csv t rows) := by
  cases t with
  | nil => cases hx
  | cons h tl =>
    rw [write_csv, if_neg (by simp), List.cons_append]
    simp only [load_existing_dates] at hx ⊢
    rw [List.filterMap_append]
    exact List.mem_append_left _ hx

lemma mem_load_write_new {t : Table} {rows : List Row} {iso : String}
    (hne : rows ≠ []) (hhead : ∀ r ∈ rows, ∃ tl, r = iso :: tl) :
    iso ∈ load_existing_dates (write_csv t rows) := by
  have hmem : iso ∈ rows.filterMap fun r =>
      match r with
      | [] => none
      | c :: _ => some c := by
    cases rows with
    | nil => cases hne rfl
    | cons r rest =>
      obtain ⟨tl, htl⟩ := hhead r (by simp)
      subst htl
      simp
  cases t with
  | nil =>
    rw [write_csv, if_pos rfl]
    exact hmem
  | cons h tl =>
    rw [write_csv, if_neg (by simp), List.cons_append]
    simp only [load_existing_dates]
    rw [List.filterMap_append]
    exact List.mem_append_right _ hmem

lemma nan_placeholder_rows_ne_nil (iso : String) :
    nan_placeholder_rows iso ≠ [] := by
  simp [nan_placeholder_rows, BLOCKS]

lemma nan_placeholder_rows_head (iso : String) :
    ∀ r ∈ nan_placeholder_rows iso, ∃ tl, r = iso :: tl := by
  intro r hr
  simp only [nan_placeholder_rows, BLOCKS, List.bind_eq_flatMap,
    List.mem_flatMap, List.mem_map] at hr
  obtain ⟨b, _, dir, _, rfl⟩ := hr
  exact ⟨_, rfl⟩

lemma parseAndAggregate_head (doc : XmlRoot) (dd : String) :
    ∀ r ∈ parseAndAggregate doc dd, ∃ tl, r = dd :: tl := by
  intro r hr
  unfold parseAndAggregate at hr
  obtain ⟨kv, _, hrw⟩ := List.mem_filterMap.mp hr
  unfold rowOfGroup at hrw
  by_cases h : kv.2 = []
  · rw [if_pos h] at hrw
    cases hrw
  · rw [if_neg h] at hrw
    simp only [Option.some.injEq] at hrw
    exact ⟨_, hrw.symm⟩

/-! ### C5: per-date failure isolation -/

/-- **C5 counterexample**: a document that fails markup parsing does *not*
halt only that date's processing — the exception propagates out of the loop
and terminates the whole run, leaving the second date unprocessed. -/
theorem C5_counterexample :
    runProduct
      (fun d => if d.iso = "2025-01-01" then some (Except.error ())
        else some (Except.ok ⟨[]⟩))
      [⟨2025, "2025-01-01"⟩, ⟨2025, "2025-01-02"⟩] []
      = Except.error () := rfl

lemma runLoop_completes (fetch : Day → FetchResult) (ds : List Day)
    (h : ∀ d ∈ ds, ∀ e : Unit, fetch d ≠ some (Except.error e)) :
    ∀ st : RunState, ∃ st', runLoop fetch ds st = Except.ok st' := by
  intro st
  induction ds generalizing st with
  | nil => exact ⟨st, rfl⟩
  | cons d rest ih =>
    have hd := h d (by simp)
    have hrest : ∀ d' ∈ rest, ∀ e : Unit, fetch d' ≠ some (Except.error e) :=
      fun d' hd' => h d' (List.mem_cons_of_mem _ hd')
    have hok : ∃ st', processDate fetch st d = Except.ok st' := by
      unfold processDate
      by_cases hmem : d.iso ∈ (st.existing.lookup d.year).getD []
      · rw [if_pos hmem]
        exact ⟨st, rfl⟩
      · rw [if_neg hmem]
        cases hfetch : fetch d with
        | none => exact ⟨_, rfl⟩
        | some r =>
          cases r with
          | error e => exact absurd hfetch (hd e)
          | ok doc =>
            dsimp only
            cases hrows : parseAndAggregate doc d.iso with
            | nil => exact ⟨_, rfl⟩
            | cons r rs => exact ⟨_, rfl⟩
    obtain ⟨st', hst'⟩ := hok
    rw [runLoop, hst']
    exact ih hrest st'

/-- **C5 (amended)**: transport failures, no-data sentinels and successful
parses never terminate the run — the loop reaches every date of the range —
but a markup parse failure propagates uncaught and aborts the whole run;
the missing-credential check happens before the loop and is outside this
model. -/
theorem C5_run_completes_without_parse_failures (fetch : Day → FetchResult)
    (ds : List Day) (tables : List (ℕ × Table))
    (h : ∀ d ∈ ds, ∀ e : Unit, fetch d ≠ some (Except.error e)) :
    ∃ st', runProduct fetch ds tables = Except.ok st' :=
  runLoop_completes fetch ds h _

/-- Witness for C5: a run whose only date has a transport failure / no-data
fetch completes. -/
theorem C5_run_completes_witness :
    ∃ st', runProduct (fun _ => none) [⟨2025, "2025-01-01"⟩] []
      = Except.ok st' :=
  C5_run_completes_without_parse_failures (fun _ => none)
    [⟨2025, "2025-01-01"⟩] [] (by intro d _ e; simp)

/-! ### C6: placeholder rows on no-data dates -/

/-- **C6 counterexample**: the placeholder rows do not have *all* numeric
fields empty — the `total_volume` cell (index 11) is written as the integer
`0`, i.e. the string `"0"`, not the empty string. -/
theorem C6_counterexample :
    ((nan_placeholder_rows "2025-01-01").getD 0 []).getD 11 "" = "0" ∧
    ¬ ((nan_placeholder_rows "2025-01-01").getD 0 []).getD 11 "" = "" := by
  constructor
  · rfl
  · decide

/-- **C6 (amended)**: for a new date whose fetch returns the no-data/failure
sentinel or whose parsed aggregation is empty, the run appends exactly the
12 placeholder rows (6 blocks × 2 directions), each carrying the date,
block index, block-start label and direction, with `count = "0"`, empty
price-statistic fields and `total_volume = "0"`; re-processing the same
date afterwards changes nothing. -/
theorem C6_placeholder_on_no_data (fetch : Day → FetchResult)
    (st : RunState) (d : Day)
    (hnew : d.iso ∉ (st.existing.lookup d.year).getD [])
    (hnd : fetch d = none ∨
      ∃ doc, fetch d = some (Except.ok doc) ∧ parseAndAggregate doc d.iso = []) :
    ∃ st', processDate fetch st d = Except.ok st' ∧
      getTable st'.tables d.year
        = write_csv (getTable st.tables d.year) (nan_placeholder_rows d.iso) ∧
      (nan_placeholder_rows d.iso).length = 12 ∧
      nan_placeholder_rows d.iso =
        [[d.iso, "0", "00:00", "down", "0", "", "", "", "", "", "", "0"],
         [d.iso, "0", "00:00", "up", "0", "", "", "", "", "", "", "0"],
         [d.iso, "1", "04:00", "down", "0", "", "", "", "", "", "", "0"],
         [d.iso, "1", "04:00", "up", "0", "", "", "", "", "", "", "0"],
         [d.iso, "2", "08:00", "down", "0", "", "", "", "", "", "", "0"],
         [d.iso, "2", "08:00", "up", "0", "", "", "", "", "", "", "0"],
         [d.iso, "3", "12:00", "down", "0", "", "", "", "", "", "", "0"],
         [d.iso, "3", "12:00", "up", "0", "", "", "", "", "", "", "0"],
         [d.iso, "4", "16:00", "down", "0", "", "", "", "", "", "", "0"],
         [d.iso, "4", "16:00", "up", "0", "", "", "", "", "", "", "0"],
         [d.iso, "5", "20:00", "down", "0", "", "", "", "", "", "", "0"],
         [d.iso, "5", "20:00", "up", "0", "", "", "", "", "", "", "0"]] ∧
      processDate fetch st' d = Except.ok st' := by
  have hmemadd : d.iso ∈
      ((addExisting st.existing d.year d.iso).lookup d.year).getD [] := by
    rw [lookup_addExisting_self]
    simp
  have hshape : nan_placeholder_rows d.iso =
      [[d.iso, "0", "00:00", "down", "0", "", "", "", "", "", "", "0"],
       [d.iso, "0", "00:00", "up", "0", "", "", "", "", "", "", "0"],
       [d.iso, "1", "04:00", "down", "0", "", "", "", "", "", "", "0"],
       [d.iso, "1", "04:00", "up", "0", "", "", "", "", "", "", "0"],
       [d.iso, "2", "08:00", "down", "0", "", "", "", "", "", "", "0"],
       [d.iso, "2", "08:00", "up", "0", "", "", "", "", "", "", "0"],
       [d.iso, "3", "12:00", "down", "0", "", "", "", "", "", "", "0"],
       [d.iso, "3", "12:00", "up", "0", "", "", "", "", "", "", "0"],
       [d.iso, "4", "16:00", "down", "0", "", "", "", "", "", "", "0"],
       [d.iso, "4", "16:00", "up", "0", "", "", "", "", "", "", "0"],
       [d.iso, "5", "20:00", "down", "0", "", "", "", "", "", "", "0"],
       [d.iso, "5", "20:00", "up", "0", "", "", "", "", "", "", "0"]] := rfl
  rcases hnd with hnone | ⟨doc, hdoc, hrows⟩
  · refine ⟨{ st with
        tables := setTable st.tables d.year
          (write_csv (getTable st.tables d.year) (nan_placeholder_rows d.iso)),
        existing := addExisting st.existing d.year d.iso,
        apiCalls := st.apiCalls + 1 }, ?_, ?_, rfl, hshape, ?_⟩
    · unfold processDate
      rw [if_neg hnew, hnone]
    · exact getTable_setTable_self _ _ _
    · unfold processDate
      rw [if_pos hmemadd]
  · refine ⟨{ st with
        tables := setTable st.tables d.year
          (write_csv (getTable st.tables d.year) (nan_placeholder_rows d.iso)),
        existing := addExisting st.existing d.year d.iso,
        apiCalls := st.apiCalls + 1 }, ?_, ?_, rfl, hshape, ?_⟩
    · unfold processDate
      rw [if_neg hnew, hdoc]
      dsimp only
      rw [hrows, if_pos rfl]
    · exact getTable_setTable_self _ _ _
    · unfold processDate
      rw [if_pos hmemadd]

/-- Witness for C6: a fresh store, one date, fetch returning the no-data
sentinel. -/
theorem C6_placeholder_on_no_data_witness :
    ∃ st', processDate (fun _ => none) ⟨[], [], 0⟩ ⟨2025, "2025-01-01"⟩
        = Except.ok st' ∧
      getTable st'.tables 2025
        = write_csv (getTable ([] : List (ℕ × Table)) 2025)
            (nan_placeholder_rows "2025-01-01") ∧
      (nan_placeholder_rows "2025-01-01").length = 12 ∧
      nan_placeholder_rows "2025-01-01" =
        [["2025-01-01", "0", "00:00", "down", "0", "", "", "", "", "", "", "0"],
         ["2025-01-01", "0", "00:00", "up", "0", "", "", "", "", "", "", "0"],
         ["2025-01-01", "1", "04:00", "down", "0", "", "", "", "", "", "", "0"],
         ["2025-01-01", "1", "04:00", "up", "0", "", "", "", "", "", "", "0"],
         ["2025-01-01", "2", "08:00", "down", "0", "", "", "", "", "", "", "0"],
         ["2025-01-01", "2", "08:00", "up", "0", "", "", "", "", "", "", "0"],
         ["2025-01-01", "3", "12:00", "down", "0", "", "", "", "", "", "", "0"],
         ["2025-01-01", "3", "12:00", "up", "0", "", "", "", "", "", "", "0"],
         ["2025-01-01", "4", "16:00", "down", "0", "", "", "", "", "", "", "0"],
         ["2025-01-01", "4", "16:00", "up", "0", "", "", "", "", "", "", "0"],
         ["2025-01-01", "5", "20:00", "down", "0", "", "", "", "", "", "", "0"],
         ["2025-01-01", "5", "20:00", "up", "0", "", "", "", "", "", "", "0"]] ∧
      processDate (fun _ => none) st' ⟨2025, "2025-01-01"⟩ = Except.ok st' :=
  C6_placeholder_on_no_data (fun _ => none) ⟨[], [], 0⟩ ⟨2025, "2025-01-01"⟩
    (by simp [List.lookup]) (Or.inl rfl)

/-! ### C3: fetch-once idempotence -/

/-- The in-memory existing-date set of one year. -/
def exOf (st : RunState) (y : ℕ) : List String :=
  (st.existing.lookup y).getD []

lemma processDate_skip (fetch : Day → FetchResult) (st : RunState) (d : Day)
    (h : d.iso ∈ exOf st d.year) : processDate fetch st d = Except.ok st := by
  unfold processDate
  dsimp only
  have h' : d.iso ∈ (st.existing.lookup d.year).getD [] := h
  rw [if_pos h']

/-- Every successful `processDate` either skips (the date was present) or
appends one non-empty batch of rows, all keyed by the date, to the date's
year table while adding the date to the in-memory set. -/
lemma processDate_cases (fetch : Day → FetchResult) (st : RunState) (d : Day)
    (st' : RunState) (h : processDate fetch st d = Except.ok st') :
    (d.iso ∈ exOf st d.year ∧ st' = st) ∨
    (∃ rows, rows ≠ [] ∧ (∀ r ∈ rows, ∃ tl, r = d.iso :: tl) ∧
      st' = { st with
        tables := setTable st.tables d.year
          (write_csv (getTable st.tables d.year) rows),
        existing := addExisting st.existing d.year d.iso,
        apiCalls := st.apiCalls + 1 }) := by
  unfold processDate at h
  by_cases hmem : d.iso ∈ (st.existing.lookup d.year).getD []
  · rw [if_pos hmem] at h
    exact Or.inl ⟨hmem, (Except.ok.inj h).symm⟩
  · rw [if_neg hmem] at h
    cases hfetch : fetch d with
    | none =>
      rw [hfetch] at h
      exact Or.inr ⟨nan_placeholder_rows d.iso, nan_placeholder_rows_ne_nil _,
        nan_placeholder_rows_head _, (Except.ok.inj h).symm⟩
    | some r =>
      cases r with
      | error e =>
        rw [hfetch] at h
        cases h
      | ok doc =>
        rw [hfetch] at h
        dsimp only at h
        cases hrows : parseAndAggregate doc d.iso with
        | nil =>
          rw [hrows] at h
          rw [if_pos rfl] at h
          exact Or.inr ⟨nan_placeholder_rows d.iso,
            nan_placeholder_rows_ne_nil _, nan_placeholder_rows_head _,
            (Except.ok.inj h).symm⟩
        | cons r0 rs =>
          rw [hrows] at h
          rw [if_neg (by simp)] at h
          refine Or.inr ⟨r0 :: rs, by simp, ?_, (Except.ok.inj h).symm⟩
          rw [← hrows]
          exact parseAndAggregate_head doc d.iso

/-- The store-level invariant: every in-memory existing date is persisted
(as the first column of some row of its year table). -/
def storeInv (st : RunState) : Prop :=
  ∀ y x, x ∈ exOf st y → x ∈ load_existing_dates (getTable st.tables y)

lemma processDate_props (fetch : Day → FetchResult) (st : RunState) (d : Day)
    (st' : RunState) (h : processDate fetch st d = Except.ok st') :
    (∀ y x, x ∈ exOf st y → x ∈ exOf st' y) ∧
    d.iso ∈ exOf st' d.year ∧
    (∀ y, List.IsPrefix (getTable st.tables y) (getTable st'.tables y)) ∧
    (storeInv st → storeInv st') := by
  rcases processDate_cases fetch st d st' h with ⟨hmem, rfl⟩ |
    ⟨rows, hne, hheads, rfl⟩
  · exact ⟨fun y x hx => hx, hmem, fun y => List.prefix_refl _, fun hi => hi⟩
  · refine ⟨?_, ?_, ?_, ?_⟩
    · intro y x hx
      by_cases hy : y = d.year
      · subst hy
        show x ∈ ((addExisting st.existing d.year d.iso).lookup d.year).getD []
        rw [lookup_addExisting_self]
        exact List.mem_append_left _ hx
      · show x ∈ ((addExisting st.existing d.year d.iso).lookup y).getD []
        rw [lookup_addExisting_ne _ _ _ _ hy]
        exact hx
    · show d.iso ∈ ((addExisting st.existing d.year d.iso).lookup d.year).getD []
      rw [lookup_addExisting_self]
      simp
    · intro y
      by_cases hy : y = d.year
      · subst hy
        show List.IsPrefix _ (getTable (setTable st.tables d.year _) d.year)
        rw [getTable_setTable_self]
        unfold write_csv
        by_cases ht : getTable st.tables d.year = []
        · rw [if_pos ht, ht]
          exact List.nil_prefix
        · rw [if_neg ht]
          exact List.prefix_append _ _
      · show List.IsPrefix _ (getTable (setTable st.tables d.year _) y)
        rw [getTable_setTable_ne _ _ _ _ hy]
    · intro hi y x hx
      by_cases hy : y = d.year
      · subst hy
        show x ∈ load_existing_dates (getTable (setTable st.tables d.year _) d.year)
        rw [getTable_setTable_self]
        replace hx : x ∈ ((addExisting st.existing d.year d.iso).lookup d.year).getD [] := hx
        rw [lookup_addExisting_self] at hx
        rcases List.mem_append.mp hx with hold | hnewm
        · exact mem_load_write_old (hi d.year x hold)
        · rw [List.mem_singleton.mp hnewm]
          exact mem_load_write_new hne hheads
      · show x ∈ load_existing_dates (getTable (setTable st.tables d.year _) y)
        rw [getTable_setTable_ne _ _ _ _ hy]
        replace hx : x ∈ ((addExisting st.existing d.year d.iso).lookup y).getD [] := hx
        rw [lookup_addExisting_ne _ _ _ _ hy] at hx
        exact hi y x hx

lemma runLoop_props (fetch : Day → FetchResult) (ds : List Day)
    (st st' : RunState) (h : runLoop fetch ds st = Except.ok st') :
    (∀ y x, x ∈ exOf st y → x ∈ exOf st' y) ∧
    (∀ d ∈ ds, d.iso ∈ exOf st' d.year) ∧
    (∀ y, List.IsPrefix (getTable st.tables y) (getTable st'.tables y)) ∧
    (storeInv st → storeInv st') := by
  induction ds generalizing st with
  | nil =>
    rw [runLoop] at h
    cases Except.ok.inj h
    exact ⟨fun y x hx => hx, by simp, fun y => List.prefix_refl _, fun hi => hi⟩
  | cons d rest ih =>
    rw [runLoop] at h
    cases hp : processDate fetch st d with
    | error e =>
      rw [hp] at h
      cases h
    | ok st1 =>
      rw [hp] at h
      obtain ⟨hgrow1, hmem1, hpre1, hinv1⟩ := processDate_props fetch st d st1 hp
      obtain ⟨hgrow2, hmem2, hpre2, hinv2⟩ := ih st1 h
      refine ⟨fun y x hx => hgrow2 y x (hgrow1 y x hx), ?_,
        fun y => (hpre1 y).trans (hpre2 y), fun hi => hinv2 (hinv1 hi)⟩
      intro d' hd'
      rcases List.mem_cons.mp hd' with rfl | hd'
      · exact hgrow2 _ _ hmem1
      · exact hmem2 d' hd'

lemma runLoop_all_skip (fetch : Day → FetchResult) (ds : List Day)
    (st : RunState) (h : ∀ d ∈ ds, d.iso ∈ exOf st d.year) :
    runLoop fetch ds st = Except.ok st := by
  induction ds with
  | nil => rfl
  | cons d rest ih =>
    rw [runLoop, processDate_skip fetch st d (h d (by simp))]
    exact ih fun d' hd' => h d' (List.mem_cons_of_mem _ hd')

lemma initExisting_lookup (tables : List (ℕ × Table)) (ds : List Day)
    (y : ℕ) :
    ((initExisting tables ds).lookup y)
      = if y ∈ (ds.map Day.year).dedup
        then some (load_existing_dates (getTable tables y)) else none := by
  unfold initExisting
  exact lookup_map_pair _ _ y

lemma initExisting_inv (tables : List (ℕ × Table)) (ds : List Day) :
    storeInv (RunState.mk tables (initExisting tables ds) 0) := by
  intro y x hx
  replace hx : x ∈ ((initExisting tables ds).lookup y).getD [] := hx
  rw [initExisting_lookup] at hx
  by_cases hy : y ∈ (ds.map Day.year).dedup
  · rw [if_pos hy] at hx
    exact hx
  · rw [if_neg hy] at hx
    cases hx

lemma initExisting_mem (tables : List (ℕ × Table)) (ds : List Day) (d : Day)
    (hd : d ∈ ds) (hmem : d.iso ∈ load_existing_dates (getTable tables d.year)) :
    d.iso ∈ ((initExisting tables ds).lookup d.year).getD [] := by
  rw [initExisting_lookup,
    if_pos (List.mem_dedup.mpr (List.mem_map_of_mem Day.year hd))]
  exact hmem

/-- The ENTSO-E half of the fetch-once/idempotence claim: a present date is
skipped with no fetch and no state change; a completed run makes every date
of the range persistent, only ever appending to year tables; re-running the
same range over the resulting store performs no API call and leaves every
table unchanged. -/
lemma entsoe_idempotent (fetch : Day → FetchResult) (ds : List Day)
    (tables : List (ℕ × Table)) (st1 : RunState)
    (hrun : runProduct fetch ds tables = Except.ok st1) :
    (∀ y, List.IsPrefix (getTable tables y) (getTable st1.tables y)) ∧
    runProduct fetch ds st1.tables
      = Except.ok (RunState.mk st1.tables (initExisting st1.tables ds) 0) := by
  unfold runProduct at hrun
  obtain ⟨hgrow, hall, hpre, hinv⟩ := runLoop_props fetch ds _ st1 hrun
  have hinv1 : storeInv st1 := hinv (initExisting_inv tables ds)
  refine ⟨hpre, ?_⟩
  unfold runProduct
  apply runLoop_all_skip
  intro d hd
  exact initExisting_mem st1.tables ds d hd (hinv1 d.year d.iso (hall d hd))

/-! ### OTE day-ahead fetcher (`fetch_ote.py`) -/

/-- One data series of the OTE chart JSON: the `"y"` value of each point
dictionary (`none` for an absent key or a JSON null). -/
structure OteSeries where
  point : List (Option ℚ)
  deriving DecidableEq, Repr

/-- A fetched OTE JSON body: `none` models a body without the
`data.dataLine` structure (the `KeyError`/`TypeError` path of
`parse_data`), otherwise the list of series. -/
abbrev OteData := Option (List OteSeries)

/-- Rendering of an optional numeric cell as the `csv` module writes it
(a JSON null and a missing key both become the empty cell).  The digits of
the numeric rendering play no role in any theorem. -/
def cellOpt : Option ℚ → String
  | none => ""
  | some q => toString q

/-- `round(x, 2)` followed by csv rendering, for the summed hourly volume. -/
def roundCell (q : ℚ) : String :=
  toString ((roundHalfEven (q * 100) : ℚ) / 100)

/-- `parse_data(data, report_date)`: `none` models the `(None, None)` error
returns; otherwise the pair of quarter-hourly and hourly row lists.  The
≥ 3-series branch is the post-2025-10-01 96-point format, the 2-series
branch the older 24-point hourly format. -/
def parse_data (data : OteData) (report_date : String) :
    Option (List Row × List Row) :=
  match data with
  | none => none
  | some series =>
    if series.length < 2 then none
    else if 3 ≤ series.length then
      let volume_points := (series.getD 0 ⟨[]⟩).point
      let price_qh_points := (series.getD 1 ⟨[]⟩).point
      let price_h_points := (series.getD 2 ⟨[]⟩).point
      let n_pts := min volume_points.length price_qh_points.length
      let qh_rows := (List.range (min 96 n_pts)).map fun i =>
        [report_date, toString (i / 4), toString ((i % 4) * 15),
         cellOpt (price_qh_points.getD i none),
         cellOpt (volume_points.getD i none)]
      let hourly_rows := (List.range 24).map fun h =>
        let base := h * 4
        let h_price := if base < price_h_points.length
          then cellOpt (price_h_points.getD base none) else ""
        let present := (List.range 4).filterMap fun qi =>
          if base + qi < volume_points.length
          then volume_points.getD (base + qi) none else none
        let h_volume := if 0 < present.length then roundCell present.sum else ""
        [report_date, toString h, h_price, h_volume]
      some (qh_rows, hourly_rows)
    else
      let volume_points := (series.getD 0 ⟨[]⟩).point
      let price_points := (series.getD 1 ⟨[]⟩).point
      let n_pts := min volume_points.length price_points.length
      let hourly_rows := (List.range (min 24 n_pts)).map fun h =>
        [report_date, toString h, cellOpt (price_points.getD h none),
         cellOpt (volume_points.getD h none)]
      some ([], hourly_rows)

/-- Header of the quarter-hourly OTE table. -/
def QH_HEADER : Row := ["date", "hour", "minute", "price_eur_mwh", "volume_mwh"]

/-- Header of the hourly OTE table. -/
def HOURLY_HEADER : Row := ["date", "hour", "price_eur_mwh", "volume_mwh"]

/-- `write_csv` of `fetch_ote.py` (header passed explicitly). -/
def write_csv_ote (header : Row) (t : Table) (rows : List Row) : Table :=
  if t = [] then header :: rows else t ++ rows

/-- The in-memory state of an OTE run: the two per-year table families,
their in-memory existing-date sets, and the number of `fetch_json` calls
actually performed. -/
structure OteState where
  qhTables : List (ℕ × Table)
  hourlyTables : List (ℕ × Table)
  qhExisting : List (ℕ × List String)
  hourlyExisting : List (ℕ × List String)
  fetchCount : ℕ
  deriving DecidableEq, Repr

/-- The in-memory qh existing-date set of one year. -/
def qhEx (st : OteState) (y : ℕ) : List String :=
  (st.qhExisting.lookup y).getD []

/-- The in-memory hourly existing-date set of one year. -/
def hourlyEx (st : OteState) (y : ℕ) : List String :=
  (st.hourlyExisting.lookup y).getD []

/-- The `fetch_json` call: only the call counter changes. -/
def bumpOte (st : OteState) : OteState :=
  { st with fetchCount := st.fetchCount + 1 }

/-- The qh-table write of `process_date`. -/
def qhWrite (st : OteState) (d : Day) (rows : List Row) : OteState :=
  { st with
    qhTables := setTable st.qhTables d.year
      (write_csv_ote QH_HEADER (getTable st.qhTables d.year) rows),
    qhExisting := addExisting st.qhExisting d.year d.iso }

/-- The hourly-table write of `process_date`. -/
def hourlyWrite (st : OteState) (d : Day) (rows : List Row) : OteState :=
  { st with
    hourlyTables := setTable st.hourlyTables d.year
      (write_csv_ote HOURLY_HEADER (getTable st.hourlyTables d.year) rows),
    hourlyExisting := addExisting st.hourlyExisting d.year d.iso }

/-- `process_date(report_date, qh_existing, hourly_existing)` together with
its write logic.  The skip test is `hourly_done and (qh_done or report_date
< "2025-10-01")`; each non-skipped date performs exactly one fetch; the two
writes are guarded by non-emptiness of the row batch and the date's absence
from the respective table (both membership tests bound before fetching, as
in the source). -/
def processDateOte (fetch : Day → Option OteData) (st : OteState) (d : Day) :
    OteState :=
  if d.iso ∈ hourlyEx st d.year ∧
      (d.iso ∈ qhEx st d.year ∨ strLtB d.iso "2025-10-01" = true) then st
  else
    match fetch d with
    | none => bumpOte st
    | some data =>
      match parse_data data d.iso with
      | none => bumpOte st
      | some (qh_rows, hourly_rows) =>
        let st2 : OteState :=
          if qh_rows ≠ [] ∧ d.iso ∉ qhEx st d.year
          then qhWrite (bumpOte st) d qh_rows else bumpOte st
        if hourly_rows ≠ [] ∧ d.iso ∉ hourlyEx st d.year
        then hourlyWrite st2 d hourly_rows else st2

/-- The OTE date loop (no exception can escape `process_date`). -/
def runLoopOte (fetch : Day → Option OteData) (dates : List Day)
    (st : OteState) : OteState :=
  dates.foldl (processDateOte fetch) st

/-- An OTE run over a date range against the two persisted table families. -/
def runOte (fetch : Day → Option OteData) (dates : List Day)
    (qhT hourlyT : List (ℕ × Table)) : OteState :=
  runLoopOte fetch dates
    (OteState.mk qhT hourlyT (initExisting qhT dates)
      (initExisting hourlyT dates) 0)

lemma parse_data_heads (data : OteData) (dd : String) (qh hr : List Row)
    (h : parse_data data dd = some (qh, hr)) :
    (∀ r ∈ qh, ∃ tl, r = dd :: tl) ∧ (∀ r ∈ hr, ∃ tl, r = dd :: tl) := by
  unfold parse_data at h
  cases data with
  | none => cases h
  | some series =>
    dsimp only at h
    by_cases h2 : series.length < 2
    · rw [if_pos h2] at h
      cases h
    · rw [if_neg h2] at h
      by_cases h3 : 3 ≤ series.length
      · rw [if_pos h3] at h
        rw [Option.some.injEq, Prod.mk.injEq] at h
        obtain ⟨hq, hh⟩ := h
        subst hq
        subst hh
        constructor
        · intro r hrm
          obtain ⟨i, _, rfl⟩ := List.mem_map.mp hrm
          exact ⟨_, rfl⟩
        · intro r hrm
          obtain ⟨i, _, rfl⟩ := List.mem_map.mp hrm
          exact ⟨_, rfl⟩
      · rw [if_neg h3] at h
        rw [Option.some.injEq, Prod.mk.injEq] at h
        obtain ⟨hq, hh⟩ := h
        subst hq
        subst hh
        refine ⟨by simp, ?_⟩
        intro r hrm
        obtain ⟨i, _, rfl⟩ := List.mem_map.mp hrm
        exact ⟨_, rfl⟩

lemma qhEx_qhWrite_self (st : OteState) (d : Day) (rows : List Row) :
    qhEx (qhWrite st d rows) d.year = qhEx st d.year ++ [d.iso] := by
  unfold qhEx qhWrite
  exact lookup_addExisting_self _ _ _

lemma qhEx_qhWrite_ne (st : OteState) (d : Day) (rows : List Row) (y : ℕ)
    (hy : y ≠ d.year) : qhEx (qhWrite st d rows) y = qhEx st y := by
  unfold qhEx qhWrite
  rw [lookup_addExisting_ne _ _ _ _ hy]

lemma hourlyEx_hourlyWrite_self (st : OteState) (d : Day) (rows : List Row) :
    hourlyEx (hourlyWrite st d rows) d.year = hourlyEx st d.year ++ [d.iso] := by
  unfold hourlyEx hourlyWrite
  exact lookup_addExisting_self _ _ _

lemma hourlyEx_hourlyWrite_ne (st : OteState) (d : Day) (rows : List Row)
    (y : ℕ) (hy : y ≠ d.year) :
    hourlyEx (hourlyWrite st d rows) y = hourlyEx st y := by
  unfold hourlyEx hourlyWrite
  rw [lookup_addExisting_ne _ _ _ _ hy]

/-- The per-date postcondition that makes a date inert on re-processing:
either it will be skipped, or its fetch/parse yields nothing, or every
non-empty row batch it yields is already persisted. -/
def oteSettled (f : Day → Option OteData) (d : Day) (st : OteState) : Prop :=
  (d.iso ∈ hourlyEx st d.year ∧
    (d.iso ∈ qhEx st d.year ∨ strLtB d.iso "2025-10-01" = true)) ∨
  f d = none ∨
  (∃ data, f d = some data ∧ parse_data data d.iso = none) ∨
  (∃ data qh hr, f d = some data ∧ parse_data data d.iso = some (qh, hr) ∧
    (qh = [] ∨ d.iso ∈ qhEx st d.year) ∧
    (hr = [] ∨ d.iso ∈ hourlyEx st d.year))

/-- The OTE store invariant: every in-memory existing date of either table
family is persisted in the corresponding year table. -/
def oteInv (st : OteState) : Prop :=
  (∀ y x, x ∈ qhEx st y → x ∈ load_existing_dates (getTable st.qhTables y)) ∧
  (∀ y x, x ∈ hourlyEx st y →
    x ∈ load_existing_dates (getTable st.hourlyTables y))

/-- Case characterization of one `process_date` step. -/
lemma processDateOte_shape (f : Day → Option OteData) (st : OteState)
    (d : Day) :
    (processDateOte f st d = st ∧ d.iso ∈ hourlyEx st d.year ∧
      (d.iso ∈ qhEx st d.year ∨ strLtB d.iso "2025-10-01" = true)) ∨
    (processDateOte f st d = bumpOte st ∧
      (f d = none ∨ (∃ data, f d = some data ∧ parse_data data d.iso = none) ∨
        (∃ data qh hr, f d = some data ∧ parse_data data d.iso = some (qh, hr) ∧
          (qh = [] ∨ d.iso ∈ qhEx st d.year) ∧
          (hr = [] ∨ d.iso ∈ hourlyEx st d.year)))) ∨
    (¬(d.iso ∈ hourlyEx st d.year ∧
        (d.iso ∈ qhEx st d.year ∨ strLtB d.iso "2025-10-01" = true)) ∧
      ∃ data qh hr, f d = some data ∧ parse_data data d.iso = some (qh, hr) ∧
      ((qh ≠ [] ∧ d.iso ∉ qhEx st d.year ∧
          (hr = [] ∨ d.iso ∈ hourlyEx st d.year) ∧
          processDateOte f st d = qhWrite (bumpOte st) d qh) ∨
       (hr ≠ [] ∧ d.iso ∉ hourlyEx st d.year ∧
          (qh = [] ∨ d.iso ∈ qhEx st d.year) ∧
          processDateOte f st d = hourlyWrite (bumpOte st) d hr) ∨
       (qh ≠ [] ∧ hr ≠ [] ∧ d.iso ∉ qhEx st d.year ∧
          d.iso ∉ hourlyEx st d.year ∧
          processDateOte f st d
            = hourlyWrite (qhWrite (bumpOte st) d qh) d hr))) := by
  by_cases hskip : d.iso ∈ hourlyEx st d.year ∧
      (d.iso ∈ qhEx st d.year ∨ strLtB d.iso "2025-10-01" = true)
  · have he : processDateOte f st d = st := by
      unfold processDateOte
      rw [if_pos hskip]
    exact Or.inl ⟨he, hskip⟩
  · cases hf : f d with
    | none =>
      have he : processDateOte f st d = bumpOte st := by
        unfold processDateOte
        rw [if_neg hskip, hf]
      exact Or.inr (Or.inl ⟨he, Or.inl rfl⟩)
    | some data =>
      cases hp : parse_data data d.iso with
      | none =>
        have he : processDateOte f st d = bumpOte st := by
          unfold processDateOte
          rw [if_neg hskip, hf]
          dsimp only
          rw [hp]
        exact Or.inr (Or.inl ⟨he, Or.inr (Or.inl ⟨data, rfl, hp⟩)⟩)
      | some pr =>
        obtain ⟨qh, hr⟩ := pr
        have hebase : processDateOte f st d =
            (let st2 : OteState :=
              if qh ≠ [] ∧ d.iso ∉ qhEx st d.year
              then qhWrite (bumpOte st) d qh else bumpOte st
             if hr ≠ [] ∧ d.iso ∉ hourlyEx st d.year
             then hourlyWrite st2 d hr else st2) := by
          unfold processDateOte
          rw [if_neg hskip, hf]
          dsimp only
          rw [hp]
        by_cases hq : qh ≠ [] ∧ d.iso ∉ qhEx st d.year
        · by_cases hh : hr ≠ [] ∧ d.iso ∉ hourlyEx st d.year
          · have he : processDateOte f st d
                = hourlyWrite (qhWrite (bumpOte st) d qh) d hr := by
              rw [hebase]
              dsimp only
              rw [if_pos hq, if_pos hh]
            exact Or.inr (Or.inr ⟨hskip, data, qh, hr, rfl, hp,
              Or.inr (Or.inr ⟨hq.1, hh.1, hq.2, hh.2, he⟩)⟩)
          · have he : processDateOte f st d = qhWrite (bumpOte st) d qh := by
              rw [hebase]
              dsimp only
              rw [if_pos hq, if_neg hh]
            exact Or.inr (Or.inr ⟨hskip, data, qh, hr, rfl, hp,
              Or.inl ⟨hq.1, hq.2, by tauto, he⟩⟩)
        · by_cases hh : hr ≠ [] ∧ d.iso ∉ hourlyEx st d.year
          · have he : processDateOte f st d
                = hourlyWrite (bumpOte st) d hr := by
              rw [hebase]
              dsimp only
              rw [if_neg hq, if_pos hh]
            exact Or.inr (Or.inr ⟨hskip, data, qh, hr, rfl, hp,
              Or.inr (Or.inl ⟨hh.1, hh.2, by tauto, he⟩)⟩)
          · have he : processDateOte f st d = bumpOte st := by
              rw [hebase]
              dsimp only
              rw [if_neg hq, if_neg hh]
            exact Or.inr (Or.inl ⟨he, Or.inr (Or.inr
              ⟨data, qh, hr, rfl, hp, by tauto, by tauto⟩)⟩)

lemma mem_load_write_ote_old (header : Row) {t : Table} {rows : List Row}
    {x : String} (hx : x ∈ load_existing_dates t) :
    x ∈ load_existing_dates (write_csv_ote header t rows) := by
  cases t with
  | nil => cases hx
  | cons h tl =>
    rw [write_csv_ote, if_neg (by simp), List.cons_append]
    simp only [load_existing_dates] at hx ⊢
    rw [List.filterMap_append]
    exact List.mem_append_left _ hx

lemma mem_load_write_ote_new (header : Row) {t : Table} {rows : List Row}
    {iso : String} (hne : rows ≠ [])
    (hhead : ∀ r ∈ rows, ∃ tl, r = iso :: tl) :
    iso ∈ load_existing_dates (write_csv_ote header t rows) := by
  have hmem : iso ∈ rows.filterMap fun r =>
      match r with
      | [] => none
      | c :: _ => some c := by
    cases rows with
    | nil => cases hne rfl
    | cons r rest =>
      obtain ⟨tl, htl⟩ := hhead r (by simp)
      subst htl
      simp
  cases t with
  | nil =>
    rw [write_csv_ote, if_pos rfl]
    exact hmem
  | cons h tl =>
    rw [write_csv_ote, if_neg (by simp), List.cons_append]
    simp only [load_existing_dates]
    rw [List.filterMap_append]
    exact List.mem_append_right _ hmem

lemma mem_qhEx_qhWrite (st : OteState) (d : Day) (rows : List Row) (y : ℕ)
    (x : String) (hx : x ∈ qhEx st y) : x ∈ qhEx (qhWrite st d rows) y := by
  by_cases hy : y = d.year
  · subst hy
    rw [qhEx_qhWrite_self]
    exact List.mem_append_left _ hx
  · rw [qhEx_qhWrite_ne _ _ _ _ hy]
    exact hx

lemma mem_hourlyEx_hourlyWrite (st : OteState) (d : Day) (rows : List Row)
    (y : ℕ) (x : String) (hx : x ∈ hourlyEx st y) :
    x ∈ hourlyEx (hourlyWrite st d rows) y := by
  by_cases hy : y = d.year
  · subst hy
    rw [hourlyEx_hourlyWrite_self]
    exact List.mem_append_left _ hx
  · rw [hourlyEx_hourlyWrite_ne _ _ _ _ hy]
    exact hx

lemma processDateOte_growth (f : Day → Option OteData) (st : OteState)
    (d : Day) (y : ℕ) (x : String) :
    (x ∈ qhEx st y → x ∈ qhEx (processDateOte f st d) y) ∧
    (x ∈ hourlyEx st y → x ∈ hourlyEx (processDateOte f st d) y) := by
  rcases processDateOte_shape f st d with ⟨he, _⟩ | ⟨he, _⟩ |
    ⟨_, data, qh, hr, _, _, hcase⟩
  · rw [he]
    exact ⟨id, id⟩
  · rw [he]
    exact ⟨id, id⟩
  · rcases hcase with ⟨_, _, _, he⟩ | ⟨_, _, _, he⟩ | ⟨_, _, _, _, he⟩
    · rw [he]
      exact ⟨fun hx => mem_qhEx_qhWrite _ _ _ _ _ hx, fun hx => hx⟩
    · rw [he]
      exact ⟨fun hx => hx, fun hx => mem_hourlyEx_hourlyWrite _ _ _ _ _ hx⟩
    · rw [he]
      constructor
      · intro hx
        show x ∈ qhEx (qhWrite (bumpOte st) d qh) y
        exact mem_qhEx_qhWrite _ _ _ _ _ hx
      · intro hx
        exact mem_hourlyEx_hourlyWrite (qhWrite (bumpOte st) d qh) d hr y x hx

lemma processDateOte_qh_preserved (f : Day → Option OteData) (st : OteState)
    (d : Day) (hmem : d.iso ∈ qhEx st d.year) :
    (processDateOte f st d).qhTables = st.qhTables := by
  rcases processDateOte_shape f st d with ⟨he, _⟩ | ⟨he, _⟩ |
    ⟨_, data, qh, hr, _, _, hcase⟩
  · rw [he]
  · rw [he]
    rfl
  · rcases hcase with ⟨_, hnot, _, he⟩ | ⟨_, _, _, he⟩ | ⟨_, _, hnot, _, he⟩
    · exact absurd hmem hnot
    · rw [he]
      rfl
    · exact absurd hmem hnot

lemma processDateOte_hourly_preserved (f : Day → Option OteData)
    (st : OteState) (d : Day) (hmem : d.iso ∈ hourlyEx st d.year) :
    (processDateOte f st d).hourlyTables = st.hourlyTables := by
  rcases processDateOte_shape f st d with ⟨he, _⟩ | ⟨he, _⟩ |
    ⟨_, data, qh, hr, _, _, hcase⟩
  · rw [he]
  · rw [he]
    rfl
  · rcases hcase with ⟨_, _, _, he⟩ | ⟨_, hnot, _, he⟩ | ⟨_, _, _, hnot, he⟩
    · rw [he]
      rfl
    · exact absurd hmem hnot
    · exact absurd hmem hnot

lemma qhWrite_inv (st : OteState) (d : Day) (rows : List Row)
    (hne : rows ≠ []) (hheads : ∀ r ∈ rows, ∃ tl, r = d.iso :: tl)
    (hi : oteInv st) : oteInv (qhWrite st d rows) := by
  constructor
  · intro y x hx
    by_cases hy : y = d.year
    · subst hy
      rw [qhEx_qhWrite_self] at hx
      show x ∈ load_existing_dates
        (getTable (setTable st.qhTables d.year _) d.year)
      rw [getTable_setTable_self]
      rcases List.mem_append.mp hx with hold | hn
      · exact mem_load_write_ote_old _ (hi.1 _ _ hold)
      · rw [List.mem_singleton.mp hn]
        exact mem_load_write_ote_new _ hne hheads
    · rw [qhEx_qhWrite_ne _ _ _ _ hy] at hx
      show x ∈ load_existing_dates (getTable (setTable st.qhTables d.year _) y)
      rw [getTable_setTable_ne _ _ _ _ hy]
      exact hi.1 _ _ hx
  · intro y x hx
    exact hi.2 y x hx

lemma hourlyWrite_inv (st : OteState) (d : Day) (rows : List Row)
    (hne : rows ≠ []) (hheads : ∀ r ∈ rows, ∃ tl, r = d.iso :: tl)
    (hi : oteInv st) : oteInv (hourlyWrite st d rows) := by
  constructor
  · intro y x hx
    exact hi.1 y x hx
  · intro y x hx
    by_cases hy : y = d.year
    · subst hy
      rw [hourlyEx_hourlyWrite_self] at hx
      show x ∈ load_existing_dates
        (getTable (setTable st.hourlyTables d.year _) d.year)
      rw [getTable_setTable_self]
      rcases List.mem_append.mp hx with hold | hn
      · exact mem_load_write_ote_old _ (hi.2 _ _ hold)
      · rw [List.mem_singleton.mp hn]
        exact mem_load_write_ote_new _ hne hheads
    · rw [hourlyEx_hourlyWrite_ne _ _ _ _ hy] at hx
      show x ∈ load_existing_dates
        (getTable (setTable st.hourlyTables d.year _) y)
      rw [getTable_setTable_ne _ _ _ _ hy]
      exact hi.2 _ _ hx

lemma processDateOte_inv (f : Day → Option OteData) (st : OteState) (d : Day)
    (hi : oteInv st) : oteInv (processDateOte f st d) := by
  rcases processDateOte_shape f st d with ⟨he, _⟩ | ⟨he, _⟩ |
    ⟨_, data, qh, hr, _, hp, hcase⟩
  · rw [he]
    exact hi
  · rw [he]
    exact hi
  · obtain ⟨hqheads, hhrheads⟩ := parse_data_heads data d.iso qh hr hp
    rcases hcase with ⟨hqne, _, _, he⟩ | ⟨hhne, _, _, he⟩ |
      ⟨hqne, hhne, _, _, he⟩
    · rw [he]
      exact qhWrite_inv _ _ _ hqne hqheads hi
    · rw [he]
      exact hourlyWrite_inv _ _ _ hhne hhrheads hi
    · rw [he]
      exact hourlyWrite_inv _ _ _ hhne hhrheads
        (qhWrite_inv _ _ _ hqne hqheads hi)

lemma processDateOte_settles (f : Day → Option OteData) (st : OteState)
    (d : Day) : oteSettled f d (processDateOte f st d) := by
  rcases processDateOte_shape f st d with ⟨he, hm⟩ | ⟨he, hinfo⟩ |
    ⟨_, data, qh, hr, hf, hp, hcase⟩
  · rw [he]
    exact Or.inl hm
  · rw [he]
    rcases hinfo with hnone | hpnone | ⟨data, qh, hr, hf, hp, hq, hh⟩
    · exact Or.inr (Or.inl hnone)
    · exact Or.inr (Or.inr (Or.inl hpnone))
    · exact Or.inr (Or.inr (Or.inr ⟨data, qh, hr, hf, hp, hq, hh⟩))
  · rcases hcase with ⟨hqne, hqnot, hhok, he⟩ | ⟨hhne, hhnot, hqok, he⟩ |
      ⟨hqne, hhne, hqnot, hhnot, he⟩
    · rw [he]
      refine Or.inr (Or.inr (Or.inr ⟨data, qh, hr, hf, hp, ?_, ?_⟩))
      · refine Or.inr ?_
        rw [qhEx_qhWrite_self]
        simp
      · rcases hhok with h0 | h0
        · exact Or.inl h0
        · exact Or.inr h0
    · rw [he]
      refine Or.inr (Or.inr (Or.inr ⟨data, qh, hr, hf, hp, ?_, ?_⟩))
      · rcases hqok with h0 | h0
        · exact Or.inl h0
        · exact Or.inr h0
      · refine Or.inr ?_
        rw [hourlyEx_hourlyWrite_self]
        simp
    · rw [he]
      refine Or.inr (Or.inr (Or.inr ⟨data, qh, hr, hf, hp, ?_, ?_⟩))
      · refine Or.inr ?_
        show d.iso ∈ qhEx (qhWrite (bumpOte st) d qh) d.year
        rw [qhEx_qhWrite_self]
        simp
      · refine Or.inr ?_
        rw [hourlyEx_hourlyWrite_self]
        simp

lemma processDateOte_noop (f : Day → Option OteData) (st : OteState) (d : Day)
    (hs : oteSettled f d st) :
    (processDateOte f st d).qhTables = st.qhTables ∧
    (processDateOte f st d).hourlyTables = st.hourlyTables ∧
    (processDateOte f st d).qhExisting = st.qhExisting ∧
    (processDateOte f st d).hourlyExisting = st.hourlyExisting := by
  rcases processDateOte_shape f st d with ⟨he, _⟩ | ⟨he, _⟩ |
    ⟨hnskip, data, qh, hr, hf, hp, hcase⟩
  · rw [he]
    exact ⟨rfl, rfl, rfl, rfl⟩
  · rw [he]
    exact ⟨rfl, rfl, rfl, rfl⟩
  · exfalso
    rcases hs with hskip | hnone | ⟨data', hf', hp'⟩ |
      ⟨data', qh', hr', hf', hp', hq', hh'⟩
    · exact hnskip hskip
    · rw [hf] at hnone
      cases hnone
    · rw [hf] at hf'
      cases Option.some.inj hf'
      rw [hp] at hp'
      cases hp'
    · rw [hf] at hf'
      cases Option.some.inj hf'
      rw [hp] at hp'
      have hpair := Option.some.inj hp'
      rw [Prod.mk.injEq] at hpair
      obtain ⟨hq0, hh0⟩ := hpair
      subst hq0
      subst hh0
      rcases hcase with ⟨hqne, hqnot, _, _⟩ | ⟨hhne, hhnot, _, _⟩ |
        ⟨hqne, hhne, hqnot, hhnot, _⟩
      · rcases hq' with h0 | h0
        · exact hqne h0
        · exact hqnot h0
      · rcases hh' with h0 | h0
        · exact hhne h0
        · exact hhnot h0
      · rcases hq' with h0 | h0
        · exact hqne h0
        · exact hqnot h0

/-- Settledness depends only on the two membership families. -/
lemma oteSettled_congr (f : Day → Option OteData) (d : Day)
    (st st' : OteState) (hq : st'.qhExisting = st.qhExisting)
    (hh : st'.hourlyExisting = st.hourlyExisting)
    (hs : oteSettled f d st) : oteSettled f d st' := by
  unfold oteSettled qhEx hourlyEx at hs ⊢
  rw [hq, hh]
  exact hs

lemma oteSettled_mono (f : Day → Option OteData) (d : Day) (st st' : OteState)
    (hg : ∀ y x, (x ∈ qhEx st y → x ∈ qhEx st' y) ∧
      (x ∈ hourlyEx st y → x ∈ hourlyEx st' y))
    (hs : oteSettled f d st) : oteSettled f d st' := by
  rcases hs with ⟨h1, h2⟩ | h | h | ⟨data, qh, hr, hf, hp, hq, hh⟩
  · refine Or.inl ⟨(hg d.year d.iso).2 h1, ?_⟩
    rcases h2 with h2 | h2
    · exact Or.inl ((hg d.year d.iso).1 h2)
    · exact Or.inr h2
  · exact Or.inr (Or.inl h)
  · exact Or.inr (Or.inr (Or.inl h))
  · refine Or.inr (Or.inr (Or.inr ⟨data, qh, hr, hf, hp, ?_, ?_⟩))
    · rcases hq with h0 | h0
      · exact Or.inl h0
      · exact Or.inr ((hg d.year d.iso).1 h0)
    · rcases hh with h0 | h0
      · exact Or.inl h0
      · exact Or.inr ((hg d.year d.iso).2 h0)

lemma runLoopOte_growth (f : Day → Option OteData) (ds : List Day)
    (st : OteState) (y : ℕ) (x : String) :
    (x ∈ qhEx st y → x ∈ qhEx (runLoopOte f ds st) y) ∧
    (x ∈ hourlyEx st y → x ∈ hourlyEx (runLoopOte f ds st) y) := by
  induction ds generalizing st with
  | nil => exact ⟨id, id⟩
  | cons d rest ih =>
    rw [runLoopOte, List.foldl_cons]
    have hstep := processDateOte_growth f st d y x
    have hrest := ih (processDateOte f st d)
    exact ⟨fun hx => hrest.1 (hstep.1 hx), fun hx => hrest.2 (hstep.2 hx)⟩

lemma runLoopOte_inv (f : Day → Option OteData) (ds : List Day)
    (st : OteState) (hi : oteInv st) : oteInv (runLoopOte f ds st) := by
  induction ds generalizing st with
  | nil => exact hi
  | cons d rest ih =>
    rw [runLoopOte, List.foldl_cons]
    exact ih _ (processDateOte_inv f st d hi)

lemma runLoopOte_establish (f : Day → Option OteData) (ds : List Day)
    (st : OteState) : ∀ d ∈ ds, oteSettled f d (runLoopOte f ds st) := by
  induction ds generalizing st with
  | nil => simp
  | cons d rest ih =>
    intro d' hd'
    rw [runLoopOte, List.foldl_cons]
    rcases List.mem_cons.mp hd' with rfl | hd'
    · exact oteSettled_mono f d' _ _
        (fun y x => runLoopOte_growth f rest _ y x)
        (processDateOte_settles f st d')
    · exact ih (processDateOte f st d) d' hd'

lemma runLoopOte_noop (f : Day → Option OteData) (ds : List Day)
    (st : OteState) (h : ∀ d ∈ ds, oteSettled f d st) :
    (runLoopOte f ds st).qhTables = st.qhTables ∧
    (runLoopOte f ds st).hourlyTables = st.hourlyTables ∧
    (runLoopOte f ds st).qhExisting = st.qhExisting ∧
    (runLoopOte f ds st).hourlyExisting = st.hourlyExisting := by
  induction ds generalizing st with
  | nil => exact ⟨rfl, rfl, rfl, rfl⟩
  | cons d rest ih =>
    rw [runLoopOte, List.foldl_cons]
    obtain ⟨e1, e2, e3, e4⟩ := processDateOte_noop f st d (h d (by simp))
    have hrest : ∀ d' ∈ rest, oteSettled f d' (processDateOte f st d) :=
      fun d' hd' => oteSettled_congr f d' st _ e3 e4
        (h d' (List.mem_cons_of_mem _ hd'))
    obtain ⟨g1, g2, g3, g4⟩ := ih (processDateOte f st d) hrest
    exact ⟨g1.trans e1, g2.trans e2, g3.trans e3, g4.trans e4⟩

lemma initExisting_sound (T : List (ℕ × Table)) (ds : List Day) (y : ℕ)
    (x : String) (hx : x ∈ ((initExisting T ds).lookup y).getD []) :
    x ∈ load_existing_dates (getTable T y) := by
  rw [initExisting_lookup] at hx
  by_cases hy : y ∈ (ds.map Day.year).dedup
  · rw [if_pos hy] at hx
    exact hx
  · rw [if_neg hy] at hx
    cases hx

lemma initExisting_complete (T : List (ℕ × Table)) (ds : List Day) (y : ℕ)
    (x : String) (hy : y ∈ (ds.map Day.year).dedup)
    (hx : x ∈ load_existing_dates (getTable T y)) :
    x ∈ ((initExisting T ds).lookup y).getD [] := by
  rw [initExisting_lookup, if_pos hy]
  exact hx

lemma oteSettled_mono' (f : Day → Option OteData) (d : Day)
    (st st' : OteState)
    (hq : d.iso ∈ qhEx st d.year → d.iso ∈ qhEx st' d.year)
    (hh : d.iso ∈ hourlyEx st d.year → d.iso ∈ hourlyEx st' d.year)
    (hs : oteSettled f d st) : oteSettled f d st' := by
  rcases hs with ⟨h1, h2⟩ | h | h | ⟨data, qh, hr, hf, hp, hq0, hh0⟩
  · refine Or.inl ⟨hh h1, ?_⟩
    rcases h2 with h2 | h2
    · exact Or.inl (hq h2)
    · exact Or.inr h2
  · exact Or.inr (Or.inl h)
  · exact Or.inr (Or.inr (Or.inl h))
  · refine Or.inr (Or.inr (Or.inr ⟨data, qh, hr, hf, hp, ?_, ?_⟩))
    · rcases hq0 with h0 | h0
      · exact Or.inl h0
      · exact Or.inr (hq h0)
    · rcases hh0 with h0 | h0
      · exact Or.inl h0
      · exact Or.inr (hh h0)

/-- The OTE half of the idempotence claim: a second run over the tables left
by a first run changes neither table family. -/
lemma ote_idempotent (f : Day → Option OteData) (ds : List Day)
    (qhT hT : List (ℕ × Table)) :
    (runOte f ds (runOte f ds qhT hT).qhTables
        (runOte f ds qhT hT).hourlyTables).qhTables
      = (runOte f ds qhT hT).qhTables ∧
    (runOte f ds (runOte f ds qhT hT).qhTables
        (runOte f ds qhT hT).hourlyTables).hourlyTables
      = (runOte f ds qhT hT).hourlyTables := by
  have hinv0 : oteInv (OteState.mk qhT hT (initExisting qhT ds)
      (initExisting hT ds) 0) := by
    constructor
    · intro y x hx
      exact initExisting_sound qhT ds y x hx
    · intro y x hx
      exact initExisting_sound hT ds y x hx
  have hinv1 : oteInv (runOte f ds qhT hT) :=
    runLoopOte_inv f ds _ hinv0
  have hsettled1 : ∀ d ∈ ds, oteSettled f d (runOte f ds qhT hT) :=
    runLoopOte_establish f ds _
  have htrans : ∀ d ∈ ds, oteSettled f d
      (OteState.mk (runOte f ds qhT hT).qhTables
        (runOte f ds qhT hT).hourlyTables
        (initExisting (runOte f ds qhT hT).qhTables ds)
        (initExisting (runOte f ds qhT hT).hourlyTables ds) 0) := by
    intro d hd
    have hy : d.year ∈ (ds.map Day.year).dedup :=
      List.mem_dedup.mpr (List.mem_map_of_mem Day.year hd)
    refine oteSettled_mono' f d _ _ ?_ ?_ (hsettled1 d hd)
    · intro hx
      exact initExisting_complete _ ds d.year d.iso hy (hinv1.1 _ _ hx)
    · intro hx
      exact initExisting_complete _ ds d.year d.iso hy (hinv1.2 _ _ hx)
  obtain ⟨g1, g2, _, _⟩ := runLoopOte_noop f ds _ htrans
  exact ⟨g1, g2⟩

/-- **C3 counterexample**: a date already present in its hourly year table is
*not* skipped unconditionally.  With the hourly table holding date
2025-10-05 but the quarter-hourly table empty, re-running that (post
2025-10-01) date performs a fetch (`fetchCount = 1`) and even appends new
quarter-hourly rows for it. -/
theorem C3_counterexample :
    ("2025-10-05" ∈ load_existing_dates
      (getTable [(2025, [HOURLY_HEADER, ["2025-10-05", "0", "10", "5"]])]
        2025)) ∧
    (runOte (fun _ => some (some [⟨[some 1]⟩, ⟨[some 2]⟩, ⟨[some 3]⟩]))
        [⟨2025, "2025-10-05"⟩] []
        [(2025, [HOURLY_HEADER, ["2025-10-05", "0", "10", "5"]])]).fetchCount
      = 1 ∧
    (runOte (fun _ => some (some [⟨[some 1]⟩, ⟨[some 2]⟩, ⟨[some 3]⟩]))
        [⟨2025, "2025-10-05"⟩] []
        [(2025, [HOURLY_HEADER, ["2025-10-05", "0", "10", "5"]])]).qhTables
      ≠ [] := by
  refine ⟨by decide, by decide, by decide⟩

/-- **C3 (amended)**: (a) in the accepted-bid fetcher a date present in the
in-memory existing set of its year is skipped unconditionally — no fetch, no
write, no state change; (b) a completed accepted-bid run only appends to
year tables, and re-running the same range over the resulting store makes no
API call and returns the store unchanged; (c) in the OTE fetcher a date
present in a table family's year table never causes that family's tables to
change (though such a date may still be re-fetched, and may add rows to the
*other* family); (d) running the same OTE date range twice leaves both table
families exactly as after the first run. -/
theorem C3_fetch_once_idempotent :
    (∀ (fetch : Day → FetchResult) (st : RunState) (d : Day),
      d.iso ∈ exOf st d.year → processDate fetch st d = Except.ok st) ∧
    (∀ (fetch : Day → FetchResult) (ds : List Day)
        (tables : List (ℕ × Table)) (st1 : RunState),
      runProduct fetch ds tables = Except.ok st1 →
      (∀ y, List.IsPrefix (getTable tables y) (getTable st1.tables y)) ∧
      ∃ st2, runProduct fetch ds st1.tables = Except.ok st2 ∧
        st2.tables = st1.tables ∧ st2.apiCalls = 0) ∧
    (∀ (f : Day → Option OteData) (st : OteState) (d : Day),
      (d.iso ∈ qhEx st d.year →
        (processDateOte f st d).qhTables = st.qhTables) ∧
      (d.iso ∈ hourlyEx st d.year →
        (processDateOte f st d).hourlyTables = st.hourlyTables)) ∧
    (∀ (f : Day → Option OteData) (ds : List Day)
        (qhT hT : List (ℕ × Table)),
      (runOte f ds (runOte f ds qhT hT).qhTables
          (runOte f ds qhT hT).hourlyTables).qhTables
        = (runOte f ds qhT hT).qhTables ∧
      (runOte f ds (runOte f ds qhT hT).qhTables
          (runOte f ds qhT hT).hourlyTables).hourlyTables
        = (runOte f ds qhT hT).hourlyTables) := by
  refine ⟨processDate_skip, ?_, ?_, ote_idempotent⟩
  · intro fetch ds tables st1 hrun
    obtain ⟨hpre, hrun2⟩ := entsoe_idempotent fetch ds tables st1 hrun
    exact ⟨hpre, _, hrun2, rfl, rfl⟩
  · intro f st d
    exact ⟨processDateOte_qh_preserved f st d,
      processDateOte_hourly_preserved f st d⟩

/-- Witness for C3: a one-date run against an empty store, its tables, and a
second run over them. -/
theorem C3_fetch_once_idempotent_witness :
    processDate (fun _ => none)
      (RunState.mk [] [(2025, ["2025-01-01"])] 0) ⟨2025, "2025-01-01"⟩
      = Except.ok (RunState.mk [] [(2025, ["2025-01-01"])] 0) :=
  C3_fetch_once_idempotent.1 (fun _ => none)
    (RunState.mk [] [(2025, ["2025-01-01"])] 0) ⟨2025, "2025-01-01"⟩
    (by decide)

/-! ### Romanian day-ahead price parser (`parse_prices` in
`fetch_ro_dam.py`) -/

/-- One `<Period>` of an A44 document: its resolution text and its points
`(position, price.amount)`, keeping only points where both fields parsed
(`if position is not None and price is not None`). -/
structure RoPeriod where
  resolution : String
  points : List (ℤ × ℚ)
  deriving DecidableEq, Repr

/-- One A44 `<TimeSeries>`: only its `Period` children matter. -/
structure RoSeries where
  periods : List RoPeriod
  deriving DecidableEq, Repr

/-- `hourly_prices[hour] = 0.0` (if absent) then `+= v`, on the
insertion-ordered dictionary. -/
def hpAdd (m : List (ℤ × ℚ)) (k : ℤ) (v : ℚ) : List (ℤ × ℚ) :=
  match m with
  | [] => [(k, v)]
  | (k', v') :: rest =>
      if k' = k then (k, v' + v) :: rest else (k', v') :: hpAdd rest k v

/-- `hourly_prices[hour] = v` (unconditional assignment). -/
def hpSet (m : List (ℤ × ℚ)) (k : ℤ) (v : ℚ) : List (ℤ × ℚ) :=
  match m with
  | [] => [(k, v)]
  | (k', v') :: rest =>
      if k' = k then (k, v) :: rest else (k', v') :: hpSet rest k v

/-- The per-period body of `parse_prices`: quarter-hourly points accumulate
`price/4` under hour `(pos−1)//4`; any other resolution assigns
`hourly_prices[pos−1] = price`. -/
def processRoPeriod (m : List (ℤ × ℚ)) (per : RoPeriod) : List (ℤ × ℚ) :=
  if per.points = [] then m
  else if per.resolution = "PT15M" then
    per.points.foldl (fun acc p => hpAdd acc ((p.1 - 1).fdiv 4) (p.2 / 4)) m
  else
    per.points.foldl (fun acc p => hpSet acc (p.1 - 1) p.2) m

/-- The dictionary of hourly prices accumulated over the whole document. -/
def hourlyPrices (doc : List RoSeries) : List (ℤ × ℚ) :=
  doc.foldl (fun m ts => ts.periods.foldl processRoPeriod m) []

/-- `f"{h:02d}"` for the hour of the interval label. -/
def pad2 (h : ℤ) : String :=
  if 0 ≤ h ∧ h < 10 then "0" ++ toString h else toString h

/-- `parse_prices(xml_str, delivery_date)` on the parsed tree: accumulate
the hourly dictionary, then emit one row per hour in ascending hour order. -/
def parse_prices (doc : List RoSeries) (delivery_date : String) : List Row :=
  (stableSort (fun a b => a.1 ≤ b.1) (hourlyPrices doc)).map fun kv =>
    [delivery_date, toString kv.1,
     delivery_date ++ "T" ++ pad2 kv.1 ++ ":00:00", fmtFixed 2 kv.2]

lemma fdiv_four_key (h c : ℤ) (hc0 : 0 ≤ c) (hc4 : c < 4) :
    (4 * h + c).fdiv 4 = h := by
  rw [Int.fdiv_eq_ediv _ (by norm_num)]
  omega

lemma lookup_hpSet_self (m : List (ℤ × ℚ)) (k : ℤ) (v : ℚ) :
    (hpSet m k v).lookup k = some v := by
  induction m with
  | nil => simp [hpSet, List.lookup]
  | cons hd rest ih =>
    obtain ⟨k', v'⟩ := hd
    by_cases hk : k' = k
    · subst hk
      simp [hpSet, List.lookup]
    · rw [hpSet, if_neg hk]
      rw [List.lookup]
      have : (k == k') = false := by
        simp [BEq.beq]
        omega
      simp only [this]
      exact ih

/-- **C4**: for the hourly-granularity Romanian feed, a 15-minute series is
reduced to hourly values at 1/4 weight per present quarter-hour point (a
full hour of four points averages them; three present points still divide
by 4), and a point of any non-15-minute (e.g. 60-minute) series assigns the
hour's value outright — the resulting value is the new price regardless of
any earlier quarter-hour-derived average stored for that hour. -/
theorem C4_quarter_hour_average_overwrite :
    (∀ (h : ℤ) (p1 p2 p3 p4 : ℚ),
      hourlyPrices [⟨[⟨"PT15M", [(4 * h + 1, p1), (4 * h + 2, p2),
          (4 * h + 3, p3), (4 * h + 4, p4)]⟩]⟩]
        = [(h, (p1 + p2 + p3 + p4) / 4)]) ∧
    (∀ (h : ℤ) (p1 p2 p3 : ℚ),
      hourlyPrices [⟨[⟨"PT15M", [(4 * h + 1, p1), (4 * h + 2, p2),
          (4 * h + 3, p3)]⟩]⟩]
        = [(h, (p1 + p2 + p3) / 4)]) ∧
    (∀ (dd : String) (h : ℤ) (p1 p2 p3 p4 : ℚ),
      parse_prices [⟨[⟨"PT15M", [(4 * h + 1, p1), (4 * h + 2, p2),
          (4 * h + 3, p3), (4 * h + 4, p4)]⟩]⟩] dd
        = [[dd, toString h, dd ++ "T" ++ pad2 h ++ ":00:00",
            fmtFixed 2 ((p1 + p2 + p3 + p4) / 4)]]) ∧
    (∀ (m : List (ℤ × ℚ)) (res : String) (pos : ℤ) (price : ℚ),
      res ≠ "PT15M" →
      (processRoPeriod m ⟨res, [(pos, price)]⟩).lookup (pos - 1)
        = some price) := by
  have k1 : ∀ h : ℤ, (4 * h + 1 - 1).fdiv 4 = h := by
    intro h
    rw [Int.fdiv_eq_ediv _ (by norm_num)]
    omega
  have k2 : ∀ h : ℤ, (4 * h + 2 - 1).fdiv 4 = h := by
    intro h
    rw [Int.fdiv_eq_ediv _ (by norm_num)]
    omega
  have k3 : ∀ h : ℤ, (4 * h + 3 - 1).fdiv 4 = h := by
    intro h
    rw [Int.fdiv_eq_ediv _ (by norm_num)]
    omega
  have k4 : ∀ h : ℤ, (4 * h + 4 - 1).fdiv 4 = h := by
    intro h
    rw [Int.fdiv_eq_ediv _ (by norm_num)]
    omega
  have havg : ∀ (h : ℤ) (p1 p2 p3 p4 : ℚ),
      hourlyPrices [⟨[⟨"PT15M", [(4 * h + 1, p1), (4 * h + 2, p2),
          (4 * h + 3, p3), (4 * h + 4, p4)]⟩]⟩]
        = [(h, (p1 + p2 + p3 + p4) / 4)] := by
    intro h p1 p2 p3 p4
    unfold hourlyPrices
    simp only [List.foldl_cons, List.foldl_nil]
    unfold processRoPeriod
    rw [if_neg (by simp), if_pos rfl]
    simp only [List.foldl_cons, List.foldl_nil, k1 h, k2 h, k3 h, k4 h,
      hpAdd, if_pos rfl, if_true, List.cons.injEq, Prod.mk.injEq, and_true]
    exact ⟨trivial, by ring⟩
  refine ⟨havg, ?_, ?_, ?_⟩
  · intro h p1 p2 p3
    unfold hourlyPrices
    simp only [List.foldl_cons, List.foldl_nil]
    unfold processRoPeriod
    rw [if_neg (by simp), if_pos rfl]
    simp only [List.foldl_cons, List.foldl_nil, k1 h, k2 h, k3 h,
      hpAdd, if_pos rfl, if_true, List.cons.injEq, Prod.mk.injEq, and_true]
    exact ⟨trivial, by ring⟩
  · intro dd h p1 p2 p3 p4
    unfold parse_prices
    rw [show hourlyPrices [⟨[⟨"PT15M", [(4 * h + 1, p1), (4 * h + 2, p2),
          (4 * h + 3, p3), (4 * h + 4, p4)]⟩]⟩]
        = [(h, (p1 + p2 + p3 + p4) / 4)] from havg h p1 p2 p3 p4]
    rfl
  · intro m res pos price hres
    unfold processRoPeriod
    rw [if_neg (by simp), if_neg hres]
    simp only [List.foldl_cons, List.foldl_nil]
    exact lookup_hpSet_self m (pos - 1) price

/-- Witness for C4's overwrite clause: an hour holding the quarter-hour
average `3` is overwritten to `7` by a 60-minute point. -/
theorem C4_quarter_hour_average_overwrite_witness :
    (processRoPeriod [((0 : ℤ), (3 : ℚ))] ⟨"PT60M", [(1, 7)]⟩).lookup
        ((1 : ℤ) - 1)
      = some 7 :=
  C4_quarter_hour_average_overwrite.2.2.2 [((0 : ℤ), (3 : ℚ))] "PT60M" 1 7
    (by decide)

/-! ### Local-date → UTC request window (`cet_to_utc_str` in
`fetch_entsoe.py`, `eet_to_utc_str` in `fetch_ro_dam.py`).

The proleptic-Gregorian arithmetic of Python's `datetime.date` is embedded
(`toordinal`, `weekday`, month tables as in CPython's `datetime` module). -/

/-- A calendar date. -/
structure Ymd where
  y : ℕ
  m : ℕ
  d : ℕ
  deriving DecidableEq, Repr

/-- Gregorian leap-year rule. -/
def isLeap (y : ℕ) : Bool :=
  (y % 4 == 0 && !(y % 100 == 0)) || y % 400 == 0

/-- Days in a month. -/
def daysInMonth (y m : ℕ) : ℕ :=
  if m = 2 then (if isLeap y then 29 else 28)
  else if m = 4 ∨ m = 6 ∨ m = 9 ∨ m = 11 then 30
  else 31

/-- CPython's `_DAYS_BEFORE_MONTH` table (index 0 unused). -/
def DAYS_BEFORE_MONTH : List ℕ :=
  [0, 0, 31, 59, 90, 120, 151, 181, 212, 243, 273, 304, 334]

/-- Days before the first of month `m` in year `y`. -/
def daysBeforeMonth (y m : ℕ) : ℕ :=
  DAYS_BEFORE_MONTH.getD m 0 + (if 2 < m ∧ isLeap y then 1 else 0)

/-- `date.toordinal()`: day 1 is 0001-01-01. -/
def toordinal (dt : Ymd) : ℕ :=
  365 * (dt.y - 1) + (dt.y - 1) / 4 - (dt.y - 1) / 100 + (dt.y - 1) / 400
    + daysBeforeMonth dt.y dt.m + dt.d

/-- `date.weekday()`: Monday is 0; 0001-01-01 is a Monday. -/
def weekday (dt : Ymd) : ℕ := (toordinal dt + 6) % 7

/-- Validity of a calendar date (the year bound is kept separate). -/
def validYmd (dt : Ymd) : Prop :=
  1 ≤ dt.m ∧ dt.m ≤ 12 ∧ 1 ≤ dt.d ∧ dt.d ≤ daysInMonth dt.y dt.m

/-- The previous calendar day (`date - timedelta(days=1)`). -/
def predDay (dt : Ymd) : Ymd :=
  if 2 ≤ dt.d then ⟨dt.y, dt.m, dt.d - 1⟩
  else if 2 ≤ dt.m then ⟨dt.y, dt.m - 1, daysInMonth dt.y (dt.m - 1)⟩
  else ⟨dt.y - 1, 12, 31⟩

/-- The next calendar day (`date + timedelta(days=1)`). -/
def succDay (dt : Ymd) : Ymd :=
  if dt.d < daysInMonth dt.y dt.m then ⟨dt.y, dt.m, dt.d + 1⟩
  else if dt.m < 12 then ⟨dt.y, dt.m + 1, 1⟩
  else ⟨dt.y + 1, 1, 1⟩

/-- `mar31 - timedelta(days=(mar31.weekday() + 1) % 7)` — the offset is at
most 6, so the subtraction stays inside March. -/
def lastSundayOfMarch (y : ℕ) : Ymd :=
  ⟨y, 3, 31 - (weekday ⟨y, 3, 31⟩ + 1) % 7⟩

/-- `oct31 - timedelta(days=(oct31.weekday() + 1) % 7)`. -/
def lastSundayOfOctober (y : ℕ) : Ymd :=
  ⟨y, 10, 31 - (weekday ⟨y, 10, 31⟩ + 1) % 7⟩

/-- Python date comparison `a <= b` ((y, m, d) lexicographic). -/
def dateLe (a b : Ymd) : Bool :=
  a.y < b.y || (a.y = b.y && (a.m < b.m || (a.m = b.m && a.d ≤ b.d)))

/-- Python date comparison `a < b`. -/
def dateLt (a b : Ymd) : Bool :=
  a.y < b.y || (a.y = b.y && (a.m < b.m || (a.m = b.m && a.d < b.d)))

/-- A timestamp on a whole hour (every datetime built by the two window
functions has zero minutes). -/
structure Dt where
  date : Ymd
  hour : ℕ
  deriving DecidableEq, Repr

/-- `datetime(y, m, d, 0, 0) - timedelta(hours=off)` for `1 ≤ off ≤ 23`:
the previous day at hour `24 − off`. -/
def midnightMinusHours (dt : Ymd) (off : ℕ) : Dt := ⟨predDay dt, 24 - off⟩

/-- `+ timedelta(hours=24)` on a whole-hour timestamp. -/
def dtPlus24h (t : Dt) : Dt := ⟨succDay t.date, t.hour⟩

/-- Absolute minutes since the epoch of day 0, for stating window widths. -/
def toMinutes (t : Dt) : ℕ := 1440 * toordinal t.date + 60 * t.hour

/-- `%Y`: four-digit zero-padded year. -/
def pad4 (n : ℕ) : String :=
  if n < 10 then "000" ++ toString n
  else if n < 100 then "00" ++ toString n
  else if n < 1000 then "0" ++ toString n
  else toString n

/-- `%m`/`%d`/`%H`: two-digit zero-padded field. -/
def pad2n (n : ℕ) : String := if n < 10 then "0" ++ toString n else toString n

/-- `strftime("%Y%m%d%H%M")` with zero minutes. -/
def fmtYmdHm (t : Dt) : String :=
  pad4 t.date.y ++ pad2n t.date.m ++ pad2n t.date.d ++ pad2n t.hour ++ "00"

/-- The CET offset chosen for date `d`: 2 in `[dst_start, dst_end)`, else 1. -/
def cetOffset (d : Ymd) : ℕ :=
  if dateLe (lastSundayOfMarch d.y) d && dateLt d (lastSundayOfOctober d.y)
  then 2 else 1

/-- The EET offset chosen for date `d`: 3 in `[dst_start, dst_end)`, else 2. -/
def eetOffset (d : Ymd) : ℕ :=
  if dateLe (lastSundayOfMarch d.y) d && dateLt d (lastSundayOfOctober d.y)
  then 3 else 2

/-- `cet_to_utc_str(d)`. -/
def cet_to_utc_str (d : Ymd) : String × String :=
  let utc_start := midnightMinusHours d (cetOffset d)
  (fmtYmdHm utc_start, fmtYmdHm (dtPlus24h utc_start))

/-- `eet_to_utc_str(d)`. -/
def eet_to_utc_str (d : Ymd) : String × String :=
  let utc_start := midnightMinusHours d (eetOffset d)
  (fmtYmdHm utc_start, fmtYmdHm (dtPlus24h utc_start))

lemma daysBeforeMonth_succ (y m : ℕ) (h1 : 1 ≤ m) (h11 : m ≤ 11) :
    daysBeforeMonth y (m + 1) = daysBeforeMonth y m + daysInMonth y m := by
  interval_cases m <;>
    cases hl : isLeap y <;>
      simp [daysBeforeMonth, DAYS_BEFORE_MONTH, daysInMonth, hl]

set_option maxHeartbeats 2000000 in
lemma toordinal_succDay (dt : Ymd) (hy : 1 ≤ dt.y) (hv : validYmd dt) :
    toordinal (succDay dt) = toordinal dt + 1 := by
  obtain ⟨y, m, d⟩ := dt
  obtain ⟨hm1, hm12, hd1, hdim⟩ := hv
  dsimp only at hm1 hm12 hd1 hdim hy
  unfold succDay
  dsimp only
  by_cases hday : d < daysInMonth y m
  · rw [if_pos hday]
    unfold toordinal
    dsimp only
    omega
  · rw [if_neg hday]
    by_cases hmon : m < 12
    · rw [if_pos hmon]
      unfold toordinal
      dsimp only
      rw [daysBeforeMonth_succ y m hm1 (by omega)]
      omega
    · rw [if_neg hmon]
      have hm12' : m = 12 := by omega
      subst hm12'
      have hd31 : d = 31 := by
        have : daysInMonth y 12 = 31 := rfl
        omega
      subst hd31
      unfold toordinal
      dsimp only
      have h1v : daysBeforeMonth (y + 1) 1 = 0 := by
        simp [daysBeforeMonth, DAYS_BEFORE_MONTH]
      have hleap : isLeap y = true ↔ (y % 4 = 0 ∧ ¬ y % 100 = 0) ∨ y % 400 = 0 := by
        simp [isLeap]
      cases hl : isLeap y
      · have h12v : daysBeforeMonth y 12 = 334 := by
          simp [daysBeforeMonth, DAYS_BEFORE_MONTH, hl]
        have hnp : ¬((y % 4 = 0 ∧ ¬ y % 100 = 0) ∨ y % 400 = 0) := by
          rw [← hleap, hl]
          simp
        rw [h12v, h1v]
        omega
      · have h12v : daysBeforeMonth y 12 = 335 := by
          simp [daysBeforeMonth, DAYS_BEFORE_MONTH, hl]
        have hp : (y % 4 = 0 ∧ ¬ y % 100 = 0) ∨ y % 400 = 0 := hleap.mp hl
        rw [h12v, h1v]
        omega

lemma validYmd_predDay (dt : Ymd) (hv : validYmd dt) :
    validYmd (predDay dt) := by
  obtain ⟨y, m, d⟩ := dt
  obtain ⟨hm1, hm12, hd1, hdim⟩ := hv
  dsimp only at hm1 hm12 hd1 hdim
  unfold predDay
  dsimp only
  by_cases hd2 : 2 ≤ d
  · rw [if_pos hd2]
    refine ⟨hm1, hm12, ?_, ?_⟩
    · show 1 ≤ d - 1
      omega
    · show d - 1 ≤ daysInMonth y m
      omega
  · rw [if_neg hd2]
    by_cases hm2 : 2 ≤ m
    · rw [if_pos hm2]
      refine ⟨?_, ?_, ?_, ?_⟩
      · show 1 ≤ m - 1
        omega
      · show m - 1 ≤ 12
        omega
      · show 1 ≤ daysInMonth y (m - 1)
        unfold daysInMonth
        by_cases h2 : m - 1 = 2
        · rw [if_pos h2]
          cases isLeap y <;> simp
        · rw [if_neg h2]
          by_cases h30 : m - 1 = 4 ∨ m - 1 = 6 ∨ m - 1 = 9 ∨ m - 1 = 11
          · rw [if_pos h30]
            omega
          · rw [if_neg h30]
            omega
      · show daysInMonth y (m - 1) ≤ daysInMonth y (m - 1)
        exact le_refl _
    · rw [if_neg hm2]
      refine ⟨?_, ?_, ?_, ?_⟩
      · show 1 ≤ 12
        omega
      · show (12 : ℕ) ≤ 12
        omega
      · show 1 ≤ 31
        omega
      · show (31 : ℕ) ≤ daysInMonth (y - 1) 12
        have h31 : daysInMonth (y - 1) 12 = 31 := rfl
        omega

set_option maxHeartbeats 2000000 in
lemma toordinal_predDay (dt : Ymd) (hy : 2 ≤ dt.y) (hv : validYmd dt) :
    toordinal (predDay dt) + 1 = toordinal dt := by
  obtain ⟨y, m, d⟩ := dt
  obtain ⟨hm1, hm12, hd1, hdim⟩ := hv
  dsimp only at hm1 hm12 hd1 hdim hy
  unfold predDay
  dsimp only
  by_cases hd2 : 2 ≤ d
  · rw [if_pos hd2]
    unfold toordinal
    dsimp only
    omega
  · rw [if_neg hd2]
    have hd1' : d = 1 := by omega
    subst hd1'
    by_cases hm2 : 2 ≤ m
    · rw [if_pos hm2]
      unfold toordinal
      dsimp only
      have := daysBeforeMonth_succ y (m - 1) (by omega) (by omega)
      have hmm : m - 1 + 1 = m := by omega
      rw [hmm] at this
      omega
    · rw [if_neg hm2]
      have hm1' : m = 1 := by omega
      subst hm1'
      unfold toordinal
      dsimp only
      have h1v : daysBeforeMonth y 1 = 0 := by
        simp [daysBeforeMonth, DAYS_BEFORE_MONTH]
      have hleap : isLeap (y - 1) = true ↔
          ((y - 1) % 4 = 0 ∧ ¬ (y - 1) % 100 = 0) ∨ (y - 1) % 400 = 0 := by
        simp [isLeap]
      cases hl : isLeap (y - 1)
      · have h12v : daysBeforeMonth (y - 1) 12 = 334 := by
          simp [daysBeforeMonth, DAYS_BEFORE_MONTH, hl]
        have hnp : ¬(((y - 1) % 4 = 0 ∧ ¬ (y - 1) % 100 = 0) ∨
            (y - 1) % 400 = 0) := by
          rw [← hleap, hl]
          simp
        rw [h12v, h1v]
        omega
      · have h12v : daysBeforeMonth (y - 1) 12 = 335 := by
          simp [daysBeforeMonth, DAYS_BEFORE_MONTH, hl]
        have hp : ((y - 1) % 4 = 0 ∧ ¬ (y - 1) % 100 = 0) ∨
            (y - 1) % 400 = 0 := hleap.mp hl
        rw [h12v, h1v]
        omega

lemma toordinal_ge_day (dt : Ymd) : dt.d ≤ toordinal dt := by
  unfold toordinal
  omega

lemma weekday_lastSunday_aux (y mo : ℕ) (_h31 : 31 ≤ toordinal ⟨y, mo, 31⟩)
    (hsub : ∀ k, k ≤ 6 →
      toordinal ⟨y, mo, 31 - k⟩ = toordinal ⟨y, mo, 31⟩ - k) :
    weekday ⟨y, mo, 31 - (weekday ⟨y, mo, 31⟩ + 1) % 7⟩ = 6 := by
  set n := toordinal ⟨y, mo, 31⟩ with hn
  have hk : (weekday ⟨y, mo, 31⟩ + 1) % 7 ≤ 6 := by omega
  rw [weekday, hsub _ hk]
  rw [weekday] at *
  omega

lemma toordinal_sub_day (y mo : ℕ) (k : ℕ) (hk : k ≤ 6) :
    toordinal ⟨y, mo, 31 - k⟩ = toordinal ⟨y, mo, 31⟩ - k := by
  unfold toordinal
  dsimp only
  omega

lemma weekday_lastSundayOfMarch (y : ℕ) :
    weekday (lastSundayOfMarch y) = 6 ∧ 25 ≤ (lastSundayOfMarch y).d := by
  constructor
  · refine weekday_lastSunday_aux y 3 ?_ (toordinal_sub_day y 3)
    exact toordinal_ge_day ⟨y, 3, 31⟩
  · show 25 ≤ 31 - (weekday ⟨y, 3, 31⟩ + 1) % 7
    have : (weekday ⟨y, 3, 31⟩ + 1) % 7 ≤ 6 := by omega
    omega

lemma weekday_lastSundayOfOctober (y : ℕ) :
    weekday (lastSundayOfOctober y) = 6 ∧ 25 ≤ (lastSundayOfOctober y).d := by
  constructor
  · refine weekday_lastSunday_aux y 10 ?_ (toordinal_sub_day y 10)
    exact toordinal_ge_day ⟨y, 10, 31⟩
  · show 25 ≤ 31 - (weekday ⟨y, 10, 31⟩ + 1) % 7
    have : (weekday ⟨y, 10, 31⟩ + 1) % 7 ≤ 6 := by omega
    omega

lemma window_start_minutes (d : Ymd) (off : ℕ) (h1 : 1 ≤ off)
    (h23 : off ≤ 23) (hy : 2 ≤ d.y) (hv : validYmd d) :
    toMinutes ⟨predDay d, 24 - off⟩ + 60 * off = toMinutes ⟨d, 0⟩ := by
  have hpred := toordinal_predDay d hy hv
  unfold toMinutes
  dsimp only
  omega

lemma predDay_year (d : Ymd) (hy : 2 ≤ d.y) : 1 ≤ (predDay d).y := by
  unfold predDay
  by_cases h1 : 2 ≤ d.d
  · rw [if_pos h1]
    show 1 ≤ d.y
    omega
  · rw [if_neg h1]
    by_cases h2 : 2 ≤ d.m
    · rw [if_pos h2]
      show 1 ≤ d.y
      omega
    · rw [if_neg h2]
      show 1 ≤ d.y - 1
      omega

lemma window_end_minutes (d : Ymd) (off : ℕ) (hy : 2 ≤ d.y)
    (hv : validYmd d) :
    toMinutes ⟨succDay (predDay d), 24 - off⟩
      = toMinutes ⟨predDay d, 24 - off⟩ + 1440 := by
  have hpv : validYmd (predDay d) := validYmd_predDay d hv
  have hsucc := toordinal_succDay (predDay d) (predDay_year d hy) hpv
  unfold toMinutes
  dsimp only
  omega

/-- **C9**: for every valid local delivery date `d` (year ≥ 2), both window
functions return the rendered `YYYYMMDDHHmm` pair `(start, start + 24h)`
where the start is local midnight minus the zone offset — 2 (CET) / 3 (EET)
hours when `d` lies in `[last Sunday of March, last Sunday of October)` as
computed by the weekday formula (which lands on an actual Sunday in the last
seven days of the month), and 1 (CET) / 2 (EET) hours otherwise; the end
always equals the start plus exactly 24 hours of absolute time.  Both
functions are total. -/
theorem C9_utc_window (d : Ymd) (hy : 2 ≤ d.y) (hv : validYmd d) :
    cet_to_utc_str d
      = (fmtYmdHm (midnightMinusHours d (cetOffset d)),
         fmtYmdHm (dtPlus24h (midnightMinusHours d (cetOffset d)))) ∧
    eet_to_utc_str d
      = (fmtYmdHm (midnightMinusHours d (eetOffset d)),
         fmtYmdHm (dtPlus24h (midnightMinusHours d (eetOffset d)))) ∧
    ((dateLe (lastSundayOfMarch d.y) d && dateLt d (lastSundayOfOctober d.y))
        = true → cetOffset d = 2 ∧ eetOffset d = 3) ∧
    ((dateLe (lastSundayOfMarch d.y) d && dateLt d (lastSundayOfOctober d.y))
        = false → cetOffset d = 1 ∧ eetOffset d = 2) ∧
    (weekday (lastSundayOfMarch d.y) = 6 ∧ 25 ≤ (lastSundayOfMarch d.y).d) ∧
    (weekday (lastSundayOfOctober d.y) = 6 ∧
      25 ≤ (lastSundayOfOctober d.y).d) ∧
    toMinutes ⟨predDay d, 24 - cetOffset d⟩ + 60 * cetOffset d
      = toMinutes ⟨d, 0⟩ ∧
    toMinutes ⟨predDay d, 24 - eetOffset d⟩ + 60 * eetOffset d
      = toMinutes ⟨d, 0⟩ ∧
    toMinutes (dtPlus24h (midnightMinusHours d (cetOffset d)))
      = toMinutes (midnightMinusHours d (cetOffset d)) + 1440 ∧
    toMinutes (dtPlus24h (midnightMinusHours d (eetOffset d)))
      = toMinutes (midnightMinusHours d (eetOffset d)) + 1440 := by
  have hcet : cetOffset d = 2 ∨ cetOffset d = 1 := by
    unfold cetOffset
    by_cases h : (dateLe (lastSundayOfMarch d.y) d
        && dateLt d (lastSundayOfOctober d.y)) = true
    · rw [if_pos h]
      exact Or.inl rfl
    · rw [if_neg h]
      exact Or.inr rfl
  have heet : eetOffset d = 3 ∨ eetOffset d = 2 := by
    unfold eetOffset
    by_cases h : (dateLe (lastSundayOfMarch d.y) d
        && dateLt d (lastSundayOfOctober d.y)) = true
    · rw [if_pos h]
      exact Or.inl rfl
    · rw [if_neg h]
      exact Or.inr rfl
  refine ⟨rfl, rfl, ?_, ?_, weekday_lastSundayOfMarch d.y,
    weekday_lastSundayOfOctober d.y, ?_, ?_, ?_, ?_⟩
  · intro h
    unfold cetOffset eetOffset
    rw [if_pos h, if_pos h]
    exact ⟨rfl, rfl⟩
  · intro h
    unfold cetOffset eetOffset
    rw [if_neg (by simp [h]), if_neg (by simp [h])]
    exact ⟨rfl, rfl⟩
  · rcases hcet with h | h <;>
      · rw [h]
        exact window_start_minutes d _ (by omega) (by omega) hy hv
  · rcases heet with h | h <;>
      · rw [h]
        exact window_start_minutes d _ (by omega) (by omega) hy hv
  · exact window_end_minutes d _ hy hv
  · exact window_end_minutes d _ hy hv

/-- Witness for C9 at the concrete date 2025-07-15 (inside DST). -/
theorem C9_utc_window_witness :
    cet_to_utc_str ⟨2025, 7, 15⟩
      = (fmtYmdHm (midnightMinusHours ⟨2025, 7, 15⟩ (cetOffset ⟨2025, 7, 15⟩)),
         fmtYmdHm (dtPlus24h
           (midnightMinusHours ⟨2025, 7, 15⟩ (cetOffset ⟨2025, 7, 15⟩)))) :=
  (C9_utc_window ⟨2025, 7, 15⟩ (by norm_num)
    ⟨by norm_num, by norm_num, by norm_num, by decide⟩).1

/-! ### Downstream statistics loader (`compute_entsoe_stats.py`) -/

/-- One CSV file as `csv.DictReader` sees it: a header row naming the
columns and the data rows. -/
structure CsvFile where
  header : Row
  rows : List Row
  deriving DecidableEq, Repr

/-- `row.get(col, default)` on a `DictReader` row: the cell under the
header column `col`, or the default when the header has no such column. -/
def dictGet (header row : Row) (col default : String) : String :=
  match header.indexOf? col with
  | none => default
  | some i => row.getD i ""

/-- Python `str.strip()` (ASCII whitespace). -/
def isSpaceChar (c : Char) : Bool :=
  c = ' ' || c = '\t' || c = '\n' || c = '\r' || c = '\x0b' || c = '\x0c'

/-- `s.strip()`. -/
def pyStrip (s : String) : String :=
  String.mk (((s.data.dropWhile isSpaceChar).reverse.dropWhile
    isSpaceChar).reverse)

/-- The grouping dictionary of `load_data`: key
`(block, block_start, direction)` to `(prices, volumes)`. -/
abbrev Groups := List ((String × String × String) × (List ℚ × List ℚ))

/-- `groups[key]["prices"].append(price)` / `...["volumes"].append(volume)`
with dictionary creation on first use. -/
def addGroup (gs : Groups) (k : String × String × String) (price vol : ℚ) :
    Groups :=
  match gs with
  | [] => [(k, ([price], [vol]))]
  | (k', pv) :: rest =>
      if k' = k then (k', (pv.1 ++ [price], pv.2 ++ [vol])) :: rest
      else (k', pv) :: addGroup rest k price vol

/-- The row body of `load_data`.  `float(...)` is the external numeric
parser, passed in as `parseFloat` (`none` models `ValueError`). -/
def loadRow (parseFloat : String → Option ℚ) (header : Row) (gs : Groups)
    (row : Row) : Groups :=
  let price_str := pyStrip (dictGet header row "price_eur_mw" "")
  if price_str = "" then gs
  else
    match parseFloat price_str with
    | none => gs
    | some price =>
      let vol_str := pyStrip (dictGet header row "volume_mw" "")
      let volume := if vol_str = "" then 0 else (parseFloat vol_str).getD 0
      addGroup gs
        (dictGet header row "block" "", dictGet header row "block_start" "",
          dictGet header row "direction" "") price volume

/-- `load_data(product_dir)` over the directory's files. -/
def load_data (parseFloat : String → Option ℚ) (files : List CsvFile) :
    Groups :=
  files.foldl (fun gs f => f.rows.foldl (loadRow parseFloat f.header) gs) []

/-- `k[0].isdigit()` and `int(k[0])`, for the sort key of
`compute_stats`. -/
def blockSortKey (s : String) : ℕ :=
  if s ≠ "" ∧ s.data.all Char.isDigit then (s.toNat?).getD 0 else 0

/-- The comparison underlying `sorted(groups.keys(), key=(int-ish block,
direction))`. -/
def statsKeyLe (a b : String × String × String) : Bool :=
  blockSortKey a.1 < blockSortKey b.1 ||
    (blockSortKey a.1 = blockSortKey b.1 ∧ (a.2.2 = b.2.2 || strLtB a.2.2 b.2.2))

/-- `compute_stats(product, groups)`. -/
def compute_stats (product : String) (gs : Groups) : List Row :=
  (stableSort (fun a b => statsKeyLe a.1 b.1) gs).filterMap fun kv =>
    let prices := stableSort (fun a b => decide (a ≤ b)) kv.2.1
    let volumes := kv.2.2
    let count := prices.length
    if count = 0 then none
    else
      let avg_vol : ℚ :=
        if volumes = [] then 0 else volumes.sum / (volumes.length : ℚ)
      some [product, kv.1.1, kv.1.2.1, kv.1.2.2, toString count,
        fmtFixed 2 (listMax prices),
        fmtFixed 2 (percentile prices 10),
        fmtFixed 2 (percentile prices 25),
        fmtFixed 2 (percentile prices 50),
        fmtFixed 2 (percentile prices 75),
        fmtFixed 2 (percentile prices 90),
        fmtFixed 1 avg_vol]

lemma loadRow_csv_header (parseFloat : String → Option ℚ) (gs : Groups)
    (row : Row) : loadRow parseFloat CSV_HEADER gs row = gs := by
  unfold loadRow
  have hidx : dictGet CSV_HEADER row "price_eur_mw" "" = "" := by
    unfold dictGet
    rw [show CSV_HEADER.indexOf? "price_eur_mw" = none from by decide]
  rw [hidx]
  rw [show pyStrip "" = "" from rfl, if_pos rfl]

/-- **C10**: the accepted-bid year tables are written with `CSV_HEADER`
(no `price_eur_mw` column), so the downstream stats loader skips every data
row of every such file — the grouping is empty and the stats computation
emits zero rows. -/
theorem C10_stats_loader_header_mismatch
    (parseFloat : String → Option ℚ) (files : List CsvFile)
    (product : String) (hh : ∀ f ∈ files, f.header = CSV_HEADER) :
    ¬ "price_eur_mw" ∈ CSV_HEADER ∧
    load_data parseFloat files = [] ∧
    compute_stats product (load_data parseFloat files) = [] := by
  have hload : load_data parseFloat files = [] := by
    unfold load_data
    have hgen : ∀ (fs : List CsvFile), (∀ f ∈ fs, f.header = CSV_HEADER) →
        fs.foldl (fun gs f => f.rows.foldl (loadRow parseFloat f.header) gs)
          ([] : Groups) = [] := by
      intro fs
      induction fs with
      | nil => intro _; rfl
      | cons f rest ih =>
        intro hall
        rw [List.foldl_cons]
        have hf : f.header = CSV_HEADER := hall f (by simp)
        have hrows : f.rows.foldl (loadRow parseFloat f.header)
            ([] : Groups) = [] := by
          rw [hf]
          induction f.rows with
          | nil => rfl
          | cons r rs ihr =>
            rw [List.foldl_cons, loadRow_csv_header]
            exact ihr
        rw [hrows]
        exact ih fun f' hf' => hall f' (List.mem_cons_of_mem _ hf')
    exact hgen files hh
  refine ⟨by decide, hload, ?_⟩
  rw [hload]
  rfl

/-- Witness for C10 on one concrete file shaped like an accepted-bid year
table. -/
theorem C10_stats_loader_header_mismatch_witness :
    ¬ "price_eur_mw" ∈ CSV_HEADER ∧
    load_data (fun _ => none)
      [⟨CSV_HEADER, [["2025-01-01", "0", "00:00", "down", "2", "10.00",
        "1.00", "2.00", "3.00", "4.00", "5.00", "7.0"]]⟩] = [] ∧
    compute_stats "afrr"
      (load_data (fun _ => none)
        [⟨CSV_HEADER, [["2025-01-01", "0", "00:00", "down", "2", "10.00",
          "1.00", "2.00", "3.00", "4.00", "5.00", "7.0"]]⟩]) = [] :=
  C10_stats_loader_header_mismatch (fun _ => none)
    [⟨CSV_HEADER, [["2025-01-01", "0", "00:00", "down", "2", "10.00",
      "1.00", "2.00", "3.00", "4.00", "5.00", "7.0"]]⟩] "afrr"
    (by intro f hf; simp at hf; rw [hf])

end AlgoEnergy
